import Mathlib

/-!
Verification development for the sanitize–extract–clean–import pipeline of the
repository (files `utils/extract_data.py`, `utils/clean_data.py`,
`utils/import_to_sql.py`).

Strings are modelled as `List Char`.  The embedding follows Python semantics on
the ASCII fragment: Python's `str.strip`, `str.lower`, `str.isdigit` and the
regex classes `\s`, `\w` are Unicode-aware, and the definitions below implement
their exact behaviour on ASCII characters.  Theorems that quantify over
arbitrary strings therefore carry an `allAscii` hypothesis where the Unicode
behaviour would diverge.
-/

/-- Strings of the modelled programs: lists of characters. -/
abbrev Str := List Char

/-- `c` is an ASCII character. -/
def isAsciiChar (c : Char) : Bool := c.toNat < 128

/-- Every character of `s` is ASCII. -/
def allAscii (s : Str) : Bool := s.all isAsciiChar

/-- Python whitespace on the ASCII range: the characters for which both
`str.isspace()` (used by `str.strip()`) and the regex class `\s` hold are
TAB (9), LF (10), VT (11), FF (12), CR (13), FS..US (28–31) and SPACE (32). -/
def pySpace (c : Char) : Bool :=
  c.toNat = 9 || c.toNat = 10 || c.toNat = 11 || c.toNat = 12 || c.toNat = 13 ||
  (28 ≤ c.toNat && c.toNat ≤ 31) || c.toNat = 32

/-- ASCII decimal digit (Python `str.isdigit` on ASCII input). -/
def pyDigit (c : Char) : Bool := 48 ≤ c.toNat && c.toNat ≤ 57

/-- ASCII uppercase letter. -/
def pyUpper (c : Char) : Bool := 65 ≤ c.toNat && c.toNat ≤ 90

/-- ASCII lowercase letter. -/
def pyLower (c : Char) : Bool := 97 ≤ c.toNat && c.toNat ≤ 122

/-- Python regex word character `\w` on the ASCII range: `[a-zA-Z0-9_]`. -/
def pyWord (c : Char) : Bool := pyUpper c || pyLower c || pyDigit c || c = '_'

/-- Python `str.lower` on one character, ASCII behaviour
(`'A'..'Z'` map to `'a'..'z'`, everything else unchanged). -/
def pyLowerChar (c : Char) : Char :=
  if 65 ≤ c.toNat ∧ c.toNat ≤ 90 then Char.ofNat (c.toNat + 32) else c

/-- A character valid inside a lowercase SQL identifier: `[a-z0-9_]`. -/
def identChar (c : Char) : Bool := pyLower c || pyDigit c || c = '_'

/-- Python `str.strip`/`str.strip(chars)`: drop the characters satisfying `p`
from both ends. -/
def stripList (p : Char → Bool) (s : Str) : Str :=
  ((s.dropWhile p).reverse.dropWhile p).reverse

/-- `re.sub(cls+, [r], s)` for a single character class: each maximal run of
characters satisfying `p` is replaced by the single character `r`.
The `inRun` flag records whether the previous character belonged to the run. -/
def collapseRunsAux (p : Char → Bool) (r : Char) : Bool → Str → Str
  | _, [] => []
  | inRun, c :: cs =>
      if p c then
        if inRun then collapseRunsAux p r true cs
        else r :: collapseRunsAux p r true cs
      else c :: collapseRunsAux p r false cs

/-- Replace each maximal run of `p`-characters by the single character `r`. -/
def collapseRuns (p : Char → Bool) (r : Char) (s : Str) : Str :=
  collapseRunsAux p r false s

/-- Decimal digits of `n`, least significant first, computed with explicit
fuel so that the definition is structurally recursive (the fuel `n` itself is
always sufficient, since `n / 10 < n` for `n ≥ 10`). -/
def natDigitsRevFuel : Nat → Nat → List Char
  | 0, n => [Nat.digitChar n]
  | fuel + 1, n =>
      if n < 10 then [Nat.digitChar n]
      else Nat.digitChar (n % 10) :: natDigitsRevFuel fuel (n / 10)

/-- Python `str(n)` for a natural number: its decimal representation. -/
def natStr (n : Nat) : Str := (natDigitsRevFuel n n).reverse

/-- Value of a decimal-digit string, least significant digit first. -/
def digitsRevVal : List Char → Nat
  | [] => 0
  | c :: cs => (c.toNat - 48) + 10 * digitsRevVal cs

theorem digitChar_val (d : Nat) (h : d < 10) : (Nat.digitChar d).toNat - 48 = d := by
  interval_cases d <;> decide

theorem digitChar_isDigit (d : Nat) (h : d < 10) : pyDigit (Nat.digitChar d) = true := by
  interval_cases d <;> decide

theorem digitsRevVal_natDigitsRevFuel :
    ∀ fuel n, n ≤ fuel → digitsRevVal (natDigitsRevFuel fuel n) = n := by
  intro fuel
  induction fuel with
  | zero =>
    intro n hn
    have : n = 0 := Nat.le_zero.mp hn
    subst this
    decide
  | succ fuel ih =>
    intro n hn
    rw [natDigitsRevFuel]
    by_cases h : n < 10
    · simp only [h, if_true, digitsRevVal, digitChar_val n h]
      omega
    · simp only [h, if_false, digitsRevVal]
      have hdiv : n / 10 ≤ fuel := by
        have := Nat.div_lt_self (show 0 < n by omega) (show 1 < 10 by omega)
        omega
      rw [ih (n / 10) hdiv, digitChar_val (n % 10) (Nat.mod_lt n (by omega))]
      omega

theorem natStr_injective : Function.Injective natStr := by
  intro m n h
  have h2 : natDigitsRevFuel m m = natDigitsRevFuel n n := by
    have := congrArg List.reverse h
    simpa [natStr] using this
  have := congrArg digitsRevVal h2
  rwa [digitsRevVal_natDigitsRevFuel m m (Nat.le_refl m),
    digitsRevVal_natDigitsRevFuel n n (Nat.le_refl n)] at this

theorem natDigitsRevFuel_ne_nil (fuel n : Nat) : natDigitsRevFuel fuel n ≠ [] := by
  cases fuel with
  | zero => simp [natDigitsRevFuel]
  | succ fuel =>
    rw [natDigitsRevFuel]
    by_cases h : n < 10 <;> simp [h]

theorem natStr_ne_nil (n : Nat) : natStr n ≠ [] := by
  simp [natStr, natDigitsRevFuel_ne_nil]

theorem mem_natDigitsRevFuel_digit {c : Char} :
    ∀ fuel n, c ∈ natDigitsRevFuel fuel n → n ≤ fuel → pyDigit c = true := by
  intro fuel
  induction fuel with
  | zero =>
    intro n h hn
    have : n = 0 := Nat.le_zero.mp hn
    subst this
    simp only [natDigitsRevFuel, List.mem_singleton] at h
    subst h
    decide
  | succ fuel ih =>
    intro n h hn
    rw [natDigitsRevFuel] at h
    by_cases h10 : n < 10
    · simp only [h10, if_true, List.mem_singleton] at h
      subst h
      exact digitChar_isDigit n h10
    · simp only [h10, if_false, List.mem_cons] at h
      rcases h with h | h
      · subst h
        exact digitChar_isDigit (n % 10) (Nat.mod_lt n (by omega))
      · have hdiv : n / 10 ≤ fuel := by
          have := Nat.div_lt_self (show 0 < n by omega) (show 1 < 10 by omega)
          omega
        exact ih (n / 10) h hdiv

theorem mem_natStr_digit {c : Char} {n : Nat} (h : c ∈ natStr n) : pyDigit c = true :=
  mem_natDigitsRevFuel_digit n n (by simpa [natStr] using h) (Nat.le_refl n)

/-!
Path helpers (CPython `pathlib.PurePath.stem`/`.suffix` and
`os.path.splitext`) for plain filenames (no directory separators, which is how
the pipeline uses them).
-/

/-- Python `str.rfind(c)`: index of the last occurrence of `c`, if any. -/
def pyRfind (c : Char) (s : Str) : Option Nat :=
  match s.reverse.findIdx? (· = c) with
  | none => none
  | some j => some (s.length - 1 - j)

/-- `pathlib` `.stem`: the name without its suffix.  CPython keeps the whole
name unless the last dot sits at an index `i` with `0 < i < len - 1`. -/
def pyStem (s : Str) : Str :=
  match pyRfind '.' s with
  | some i => if 0 < i ∧ i < s.length - 1 then s.take i else s
  | none => s

/-- `pathlib` `.suffix`: the extension, empty unless the last dot sits at an
index `i` with `0 < i < len - 1`. -/
def pySuffix (s : Str) : Str :=
  match pyRfind '.' s with
  | some i => if 0 < i ∧ i < s.length - 1 then s.drop i else []
  | none => []

/-- `os.path.splitext`: split at the last dot, unless every character before
it is itself a dot (CPython skips leading dots of the basename). -/
def pySplitext (s : Str) : Str × Str :=
  match pyRfind '.' s with
  | some i => if (s.take i).any (· ≠ '.') then (s.take i, s.drop i) else (s, [])
  | none => (s, [])

/-!
The three sanitizers of the pipeline, one per component, each translated from
its own Python function.
-/

/-- Guard `if not name or name[0].isdigit()` shared by the two sanitizers that
prefix `tbl_`/`col_`. -/
def needsPrefix (s : Str) : Bool :=
  match s with
  | [] => true
  | c :: _ => pyDigit c

/-- `"col_" if is_column else "tbl_"`. -/
def kindPrefix (isColumn : Bool) : Str :=
  match isColumn with
  | true => "col_".toList
  | false => "tbl_".toList

/-- Loader sanitizer, `import_to_sql.sanitize_identifier`.  For table names
(`is_column = false`) the argument is first reduced to its `pathlib` stem.
Steps: strip; lower; `re.sub(r'[\s.-]+', '_')`; `re.sub(r'[^\w_]', '')`;
`re.sub(r'_+', '_')` and `strip('_')`; prefix `tbl_`/`col_` when empty or
digit-leading (with `unnamed` for the empty case); truncate to 63. -/
def sanitizeIdentifier (name : Str) (isColumn : Bool) : Str :=
  let s0 := if isColumn then name else pyStem name
  let s1 := (stripList pySpace s0).map pyLowerChar
  let s2 := collapseRuns (fun c => pySpace c || c = '.' || c = '-') '_' s1
  let s3 := s2.filter pyWord
  let s4 := stripList (· = '_') (collapseRuns (· = '_') '_' s3)
  let s5 :=
    if needsPrefix s4 then
      kindPrefix isColumn ++ (if s4 = [] then "unnamed".toList else s4)
    else s4
  s5.take 63

/-- Normalizer column sanitizer, `clean_data._sanitize_column_name`.
Steps: strip; lower; `replace(" ", "_")`; `replace("-", "_")`;
`re.sub(r'\W+', '')` (which keeps underscores, since `_` is a word
character); prefix `col_` when empty or digit-leading; truncate to 63.
Note: no dot replacement, no underscore collapsing, no `strip('_')`. -/
def sanitizeColumnName (name : Str) : Str :=
  let s1 := (stripList pySpace name).map pyLowerChar
  let s2 := s1.map (fun c => if c = ' ' then '_' else c)
  let s3 := s2.map (fun c => if c = '-' then '_' else c)
  let s4 := s3.filter pyWord
  let s5 :=
    if needsPrefix s4 then "col_".toList ++ (if s4 = [] then "unnamed".toList else s4)
    else s4
  s5.take 63

/-- `re.sub(r'\s+|-+|\.+', '_', s)` from the Collector's sanitizer.  The three
alternatives are pairwise disjoint character classes and `'_'` belongs to none
of them, so replacing the maximal runs of each class one class at a time is
the same as the single left-to-right alternation pass. -/
def subAltRuns (s : Str) : Str :=
  collapseRuns (· = '.') '_' (collapseRuns (· = '-') '_' (collapseRuns pySpace '_' s))

/-- Collector filename sanitizer, `extract_data._sanitize_and_shorten_filename`.
Steps: lower (no strip); `re.sub(r'\s+|-+|\.+', '_')`; `re.sub(r'[^\w_]', '')`;
`re.sub(r'_+', '_')` and `strip('_')`; `unnamed_file` when empty; truncate the
base to `maxLenBase` (the caller always uses the default 50) and `strip('_')`
again; append the lowercased original extension. -/
def sanitizeFilename (baseName : Str) (originalExtension : Str) (maxLenBase : Nat) : Str :=
  let s1 := baseName.map pyLowerChar
  let s2 := subAltRuns s1
  let s3 := s2.filter pyWord
  let s4 := stripList (· = '_') (collapseRuns (· = '_') '_' s3)
  let s5 := if s4 = [] then "unnamed_file".toList else s4
  let s6 := if maxLenBase < s5.length then stripList (· = '_') (s5.take maxLenBase) else s5
  s6 ++ originalExtension.map pyLowerChar

/-!
Fresh-name search.  Both `extract_data._generate_unique_filename` and the
column-deduplication loops of `clean_data.py`/`import_to_sql.py` run
`while candidate in used: candidate = next one`.  The loop returns the first
candidate (in order `cand 0, cand 1, …`) not in `used`; because the candidate
sequence is injective and `used` is finite, an index `≤ used.length` is always
free, so a bounded search with fuel `used.length + 1` computes the loop's
result exactly.
-/

/-- Bounded linear search for the first fresh candidate at index `≥ k`. -/
def searchFresh (used : List Str) (cand : Nat → Str) (k fuel : Nat) : Str :=
  match fuel with
  | 0 => cand k
  | fuel + 1 => if cand k ∈ used then searchFresh used cand (k + 1) fuel else cand k

/-- The first candidate not occurring in `used`. -/
def freshFrom (used : List Str) (cand : Nat → Str) : Str :=
  searchFresh used cand 0 (used.length + 1)

theorem searchFresh_not_mem (used : List Str) (cand : Nat → Str) :
    ∀ fuel k, (∃ m, k ≤ m ∧ m ≤ k + fuel ∧ cand m ∉ used) →
      searchFresh used cand k fuel ∉ used := by
  intro fuel
  induction fuel with
  | zero =>
    intro k ⟨m, hkm, hmk, hfree⟩
    have : m = k := by omega
    subst this
    simpa [searchFresh] using hfree
  | succ fuel ih =>
    intro k ⟨m, hkm, hmk, hfree⟩
    rw [searchFresh]
    by_cases hc : cand k ∈ used
    · simp only [hc, if_true]
      apply ih
      refine ⟨m, ?_, by omega, hfree⟩
      rcases Nat.eq_or_lt_of_le hkm with h | h
      · subst h; exact absurd hc hfree
      · omega
    · rw [if_neg hc]
      exact hc

theorem exists_fresh (used : List Str) (cand : Nat → Str)
    (hinj : Function.Injective cand) : ∃ m, m ≤ used.length ∧ cand m ∉ used := by
  by_contra hall
  push_neg at hall
  have hsub : (List.range (used.length + 1)).map cand ⊆ used := by
    intro x hx
    rcases List.mem_map.mp hx with ⟨m, hm, rfl⟩
    exact hall m (by simpa [List.mem_range] using Nat.lt_succ_iff.mp (List.mem_range.mp hm))
  have hnd : ((List.range (used.length + 1)).map cand).Nodup :=
    (List.nodup_range (used.length + 1)).map_on (fun x _ y _ h => hinj h)
  have hlen : ((List.range (used.length + 1)).map cand).length = used.length + 1 := by
    simp
  have hcard1 : ((List.range (used.length + 1)).map cand).toFinset.card = used.length + 1 := by
    rw [List.toFinset_card_of_nodup hnd, hlen]
  have hcard2 : ((List.range (used.length + 1)).map cand).toFinset ⊆ used.toFinset := by
    intro x hx
    exact List.mem_toFinset.mpr (hsub (List.mem_toFinset.mp hx))
  have := Finset.card_le_card hcard2
  have := used.toFinset_card_le
  omega

theorem freshFrom_not_mem (used : List Str) (cand : Nat → Str)
    (hinj : Function.Injective cand) : freshFrom used cand ∉ used := by
  rcases exists_fresh used cand hinj with ⟨m, hm, hfree⟩
  exact searchFresh_not_mem used cand (used.length + 1) 0 ⟨m, Nat.zero_le m, by omega, hfree⟩

/-- Candidate sequence of `extract_data._generate_unique_filename`: the
requested name first, then `stem_1.ext`, `stem_2.ext`, … where
`(stem, ext) = os.path.splitext(base)`. -/
def uniqueCandidates (base : Str) : Nat → Str
  | 0 => base
  | k + 1 => (pySplitext base).1 ++ '_' :: (natStr (k + 1) ++ (pySplitext base).2)

/-- `extract_data._generate_unique_filename`: first candidate not already
present in the staging directory. -/
def generateUniqueFilename (dir : List Str) (base : Str) : Str :=
  freshFrom dir (uniqueCandidates base)

/-- Candidate sequence of the header-deduplication loops: the sanitized name
first, then `name_1`, `name_2`, … -/
def dedupCandidates (c : Str) : Nat → Str
  | 0 => c
  | k + 1 => c ++ '_' :: natStr (k + 1)

/-- The header-deduplication loop shared (as duplicated code) by
`clean_data.clean_csv_file` and both branches of
`import_to_sql.import_cleaned_data_to_postgres`: assign each sanitized column
the first suffixed variant not yet taken in this row. -/
def dedupAux (seen : List Str) : List Str → List Str
  | [] => []
  | c :: cs =>
      let u := freshFrom seen (dedupCandidates c)
      u :: dedupAux (u :: seen) cs

/-- Deduplicate a row of sanitized column names. -/
def dedupCols (cols : List Str) : List Str := dedupAux [] cols

theorem pySplitext_append (s : Str) : (pySplitext s).1 ++ (pySplitext s).2 = s := by
  unfold pySplitext
  cases pyRfind '.' s with
  | none => simp
  | some i =>
    simp only
    split
    · exact List.take_append_drop i s
    · simp

theorem uniqueCandidates_injective (base : Str) :
    Function.Injective (uniqueCandidates base) := by
  intro m n h
  match m, n with
  | 0, 0 => rfl
  | 0, n + 1 =>
    exfalso
    have hlen := congrArg List.length h
    have := pySplitext_append base
    have hl := congrArg List.length this
    simp [uniqueCandidates] at hlen
    simp at hl
    omega
  | m + 1, 0 =>
    exfalso
    have hlen := congrArg List.length h
    have := pySplitext_append base
    have hl := congrArg List.length this
    simp [uniqueCandidates] at hlen
    simp at hl
    omega
  | m + 1, n + 1 =>
    simp only [uniqueCandidates] at h
    have h1 := List.append_cancel_left h
    have h2 := List.tail_eq_of_cons_eq h1
    have h3 := List.append_cancel_right h2
    have := natStr_injective h3
    omega

theorem dedupCandidates_injective (c : Str) :
    Function.Injective (dedupCandidates c) := by
  intro m n h
  match m, n with
  | 0, 0 => rfl
  | 0, n + 1 =>
    exfalso
    have hlen := congrArg List.length h
    simp [dedupCandidates] at hlen
  | m + 1, 0 =>
    exfalso
    have hlen := congrArg List.length h
    simp [dedupCandidates] at hlen
  | m + 1, n + 1 =>
    simp only [dedupCandidates] at h
    have h1 := List.append_cancel_left h
    have h2 := List.tail_eq_of_cons_eq h1
    have := natStr_injective h2
    omega

/-- Evaluation checks of the embedded helpers against Python behaviour. -/
theorem sanitizer_evaluation_checks :
    sanitizeIdentifier "Report A.csv".toList false = "report_a".toList ∧
    sanitizeFilename "Report A".toList ".csv".toList 50 = "report_a.csv".toList ∧
    sanitizeFilename "report-a".toList ".csv".toList 50 = "report_a.csv".toList ∧
    pySuffix "notes.txt".toList = ".txt".toList ∧
    pySplitext "a.csv".toList = ("a".toList, ".csv".toList) ∧
    sanitizeIdentifier "123".toList true = "col_123".toList ∧
    sanitizeIdentifier "  ".toList false = "tbl_unnamed".toList ∧
    dedupCols ["a".toList, "a".toList, "a".toList] =
      ["a".toList, "a_1".toList, "a_2".toList] ∧
    generateUniqueFilename ["a.csv".toList] "a.csv".toList = "a_1.csv".toList ∧
    generateUniqueFilename ["a.csv".toList, "a_1.csv".toList] "a.csv".toList =
      "a_2.csv".toList := by
  refine ⟨by decide, by decide, by decide, by decide, by decide, by decide, by decide,
    by decide, by decide, by decide⟩

/-!
Content Normalizer, `clean_data.clean_csv_file`.  The csv reader/writer pair
is modelled at the row level: a file is the list of rows the `csv` module
yields, each row a list of cell strings (so the csv quoting round-trip is
treated as exact, which it is for the `csv` module with `newline=''`).
-/

/-- Python `s.replace('\r\n', ' ')`: left-to-right, non-overlapping. -/
def replaceCRLF : Str → Str
  | [] => []
  | [c] => [c]
  | c :: d :: rest =>
      if c = '\r' ∧ d = '\n' then ' ' :: replaceCRLF rest
      else c :: replaceCRLF (d :: rest)

/-- Python `s.replace(a, b)` for single characters. -/
def replaceChar (a b : Char) (s : Str) : Str :=
  s.map (fun c => if c = a then b else c)

/-- Cell cleanup of retained rows:
`str(cell).strip().replace('\r\n',' ').replace('\n',' ').replace('\r',' ')`. -/
def cleanCell (cell : Str) : Str :=
  replaceChar '\r' ' ' (replaceChar '\n' ' ' (replaceCRLF (stripList pySpace cell)))

/-- `any(cell.strip() for cell in row)`: the row has some non-blank cell. -/
def rowNonblank (row : List Str) : Bool :=
  row.any (fun cell => !(stripList pySpace cell).isEmpty)

/-- Clean every cell of a retained row. -/
def cleanRow (row : List Str) : List Str := row.map cleanCell

/-- The header probe: up to `n` (in the source, 5) calls of
`next(reader, None)`, stopping at the first row with a non-blank cell.
Returns the header found (if any) and the rows left in the reader. -/
def findHeader : Nat → List (List Str) → Option (List Str) × List (List Str)
  | 0, rows => (none, rows)
  | _ + 1, [] => (none, [])
  | n + 1, r :: rs => if rowNonblank r then (some r, rs) else findHeader n rs

/-- Result of cleaning one CSV file: the written header row (if any), whether
the no-valid-header warning was printed, and the written data rows. -/
structure CleanCsvResult where
  header : Option (List Str)
  warned : Bool
  dataRows : List (List Str)
deriving DecidableEq

/-- `clean_data.clean_csv_file` on parsed rows: probe the first 5 rows for a
header; if found, write it sanitized and deduplicated; then drop all-blank
rows and clean the cells of every retained remaining row. -/
def cleanCsvFile (rows : List (List Str)) : CleanCsvResult :=
  match findHeader 5 rows with
  | (some h, rest) =>
      { header := some (dedupCols (h.map sanitizeColumnName))
        warned := false
        dataRows := (rest.filter rowNonblank).map cleanRow }
  | (none, rest) =>
      { header := none
        warned := true
        dataRows := (rest.filter rowNonblank).map cleanRow }

/-!
Schema-Aware Loader, `import_to_sql.import_cleaned_data_to_postgres`.

The relational store is modelled as an association list from table name to
`Table` (ordered column list plus row list), standing for one schema whose
existence `CREATE SCHEMA IF NOT EXISTS` has ensured.  `COPY` outcomes that
depend on the external database are abstracted by a `CopyOracle` giving, per
filename, either success or a `psycopg2` error record.  Connection-level
failures (which abort the whole invocation with a summary entry) and the
missing-directory early return are outside the modelled happy path; the claims
under verification quantify over runs that reach the per-file loop.
-/

/-- One live table: ordered columns (all TEXT) and its rows. -/
structure Table where
  cols : List Str
  rows : List (List Str)
deriving DecidableEq

/-- The store: association list from table name to table. -/
abbrev DB := List (Str × Table)

/-- `CREATE TABLE IF NOT EXISTS schema.t (cols TEXT, …)` followed by
`conn.commit()`: a no-op when the table exists, otherwise a new empty table. -/
def createIfNotExists (t : Str) (cols : List Str) (db : DB) : DB :=
  match db.lookup t with
  | some _ => db
  | none => (t, ⟨cols, []⟩) :: db

/-- The committed effect of a successful `COPY … FROM STDIN`: append rows. -/
def dbAppendRows (t : Str) (newRows : List (List Str)) (db : DB) : DB :=
  db.map (fun p => if p.1 = t then (p.1, ⟨p.2.cols, p.2.rows ++ newRows⟩) else p)

/-- A `psycopg2.Error` as the except-block reads it: `pgerror` message plus
the optional `diag.message_detail` / `diag.message_hint`. -/
structure DbError where
  message : Str
  detail : Option Str
  hint : Option Str
deriving DecidableEq

/-- Per-file import outcome, the status string recorded in the returned
mapping (constructors carry exactly the data the source interpolates). -/
inductive Outcome where
  | success (schemaName tableName : Str)
  | mismatch (fileCols dbCols : List Str)
  | copyError (e : DbError)
  | noColumns
  | emptyExcel
  | nonDbError
  | summaryNoTargets
deriving DecidableEq

/-- Environment oracle for the bulk `COPY` of a given file: `none` means the
append succeeds, `some e` that the store raises `e`. -/
abbrev CopyOracle := Str → Option DbError

/-- One file of the cleaned-data directory: its filename and the rows its
tabular content parses to (for Excel files, the first sheet as read by
`pd.read_excel`: first row the column labels, remaining rows the data). -/
structure DFile where
  name : Str
  rows : List (List Str)
deriving DecidableEq

/-- `file_path.suffix.lower()`. -/
def fileExt (f : DFile) : Str := (pySuffix f.name).map pyLowerChar

/-- The create / compare / append sequence shared verbatim by the CSV and the
Excel branch of the source: ensure the table, commit, read the live columns
from the catalog, reject on any difference, otherwise `COPY` and commit (or
roll back to the committed CREATE on a database error). -/
def loadTabular (o : CopyOracle) (schemaName : Str) (db : DB) (f : DFile)
    (finalCols : List Str) (dataRows : List (List Str)) : DB × Outcome :=
  let tname := sanitizeIdentifier f.name false
  let db1 := createIfNotExists tname finalCols db
  match db1.lookup tname with
  | none => (db1, .noColumns)
  | some tab =>
      if tab.cols = [] then (db1, .noColumns)
      else if finalCols ≠ tab.cols then (db1, .mismatch finalCols tab.cols)
      else
        match o f.name with
        | some e => (db1, .copyError e)
        | none => (dbAppendRows tname dataRows db1, .success schemaName tname)

/-- Process one file of the per-file loop.  `.csv` files: read the header with
`next(reader)` (empty file raises `StopIteration`, an empty header raises
`ValueError`, both caught as non-DB errors with a rollback that changes
nothing), sanitize and deduplicate it, then load; `.xls`/`.xlsx` files: read
the first sheet, record an outcome and skip when the frame is empty (no rows
or no columns), else the same load; any other extension: no handler exists in
the loop body, so no outcome is recorded. -/
def processFile (o : CopyOracle) (schemaName : Str) (db : DB) (f : DFile) :
    DB × Option Outcome :=
  if fileExt f = ".csv".toList then
    match f.rows with
    | [] => (db, some .nonDbError)
    | header :: dataRows =>
        if header = [] then (db, some .nonDbError)
        else
          let r := loadTabular o schemaName db f
            (dedupCols (header.map (fun c => sanitizeIdentifier c true))) dataRows
          (r.1, some r.2)
  else if fileExt f = ".xls".toList ∨ fileExt f = ".xlsx".toList then
    match f.rows with
    | [] => (db, some .emptyExcel)
    | header :: dataRows =>
        if header = [] ∨ dataRows = [] then (db, some .emptyExcel)
        else
          let r := loadTabular o schemaName db f
            (dedupCols (header.map (fun c => sanitizeIdentifier c true))) dataRows
          (r.1, some r.2)
  else (db, none)

/-- The per-file loop, accumulating the `import_status` mapping. -/
def importFold (o : CopyOracle) (schemaName : Str) :
    DB → List (Str × Outcome) → List DFile → DB × List (Str × Outcome)
  | db, acc, [] => (db, acc)
  | db, acc, f :: fs =>
      match processFile o schemaName db f with
      | (db', some st) => importFold o schemaName db' (acc ++ [(f.name, st)]) fs
      | (db', none) => importFold o schemaName db' acc fs

/-- The reserved summary key returned when no file matches the extensions. -/
def summaryNoTargetsKey : Str := "summary_no_target_files".toList

/-- `import_cleaned_data_to_postgres` on an existing cleaned-data directory
with a healthy connection: select the files whose lowercased suffix is in
`target_extensions`, return the reserved summary entry when none match, and
otherwise run the per-file loop. -/
def importCleanedData (o : CopyOracle) (schemaName : Str)
    (targetExtensions : List Str) (db : DB) (files : List DFile) :
    DB × List (Str × Outcome) :=
  let sel := files.filter (fun f => decide (fileExt f ∈ targetExtensions))
  if sel.isEmpty then (db, [(summaryNoTargetsKey, Outcome.summaryNoTargets)])
  else importFold o schemaName db [] sel

/-- The source's default: `{'.csv', '.xlsx', '.xls', '.txt'}`. -/
def defaultTargetExtensions : List Str :=
  [".csv".toList, ".xlsx".toList, ".xls".toList, ".txt".toList]

/-- Evaluation check of the Normalizer on one small CSV: deduplicated header,
blank row dropped, CRLF collapsed. -/
theorem normalizer_evaluation_check :
    cleanCsvFile [["a b".toList, "a-b".toList], [" x\r\ny ".toList, "".toList], ["".toList]] =
      { header := some ["a_b".toList, "a_b_1".toList]
        warned := false
        dataRows := [["x y".toList, "".toList]] } := by decide

/-- Evaluation check of the Loader on one small CSV (the §8 end-to-end shape):
new table created with sanitized columns, rows appended, success recorded. -/
theorem loader_evaluation_check :
    (importCleanedData (fun _ => none) "public".toList defaultTargetExtensions []
      [⟨"t.csv".toList, [["A".toList, "B".toList], ["1".toList, "2".toList]]⟩]).1 =
      [("t".toList, ⟨["a".toList, "b".toList], [["1".toList, "2".toList]]⟩)] ∧
    (importCleanedData (fun _ => none) "public".toList defaultTargetExtensions []
      [⟨"t.csv".toList, [["A".toList, "B".toList], ["1".toList, "2".toList]]⟩]).2 =
      [("t.csv".toList, Outcome.success "public".toList "t".toList)] := by
  exact ⟨by decide, by decide⟩

/-!
Supporting lemmas: membership through the string-processing steps, and the
character-set properties of the sanitizers.
-/

theorem mem_of_mem_dropWhile {p : Char → Bool} {s : Str} {c : Char}
    (h : c ∈ s.dropWhile p) : c ∈ s :=
  ((List.dropWhile_sublist p : (s.dropWhile p).Sublist s)).subset h

theorem mem_of_mem_stripList {p : Char → Bool} {s : Str} {c : Char}
    (h : c ∈ stripList p s) : c ∈ s := by
  unfold stripList at h
  rw [List.mem_reverse] at h
  have h2 := mem_of_mem_dropWhile h
  rw [List.mem_reverse] at h2
  exact mem_of_mem_dropWhile h2

theorem mem_collapseRunsAux {p : Char → Bool} {r : Char} {c : Char} :
    ∀ {b : Bool} {s : Str}, c ∈ collapseRunsAux p r b s → c ∈ s ∨ c = r := by
  intro b s
  induction s generalizing b with
  | nil => intro h; simp [collapseRunsAux] at h
  | cons a t ih =>
    intro h
    by_cases hp : p a = true
    · cases b with
      | true =>
        have heq : collapseRunsAux p r true (a :: t) = collapseRunsAux p r true t := by
          simp [collapseRunsAux, hp]
        rw [heq] at h
        rcases ih h with h2 | h2
        · exact Or.inl (List.mem_cons_of_mem a h2)
        · exact Or.inr h2
      | false =>
        have heq : collapseRunsAux p r false (a :: t) = r :: collapseRunsAux p r true t := by
          simp [collapseRunsAux, hp]
        rw [heq] at h
        rcases List.mem_cons.mp h with h1 | h1
        · exact Or.inr h1
        · rcases ih h1 with h2 | h2
          · exact Or.inl (List.mem_cons_of_mem a h2)
          · exact Or.inr h2
    · have heq : collapseRunsAux p r b (a :: t) = a :: collapseRunsAux p r false t := by
        simp [collapseRunsAux, hp]
      rw [heq] at h
      rcases List.mem_cons.mp h with h1 | h1
      · exact Or.inl (by simp [h1])
      · rcases ih h1 with h2 | h2
        · exact Or.inl (List.mem_cons_of_mem a h2)
        · exact Or.inr h2

theorem mem_collapseRuns {p : Char → Bool} {r : Char} {s : Str} {c : Char}
    (h : c ∈ collapseRuns p r s) : c ∈ s ∨ c = r :=
  mem_collapseRunsAux h

theorem head_dropWhile_false {p : Char → Bool} {s : Str} {c : Char}
    (h : (s.dropWhile p).head? = some c) : p c = false := by
  induction s with
  | nil => simp [List.dropWhile] at h
  | cons a t ih =>
    rw [List.dropWhile_cons] at h
    by_cases hp : p a = true
    · rw [if_pos hp] at h
      exact ih h
    · rw [if_neg hp] at h
      simp only [List.head?_cons, Option.some.injEq] at h
      subst h
      simpa using hp

theorem getLast_dropWhile {p : Char → Bool} {s : Str}
    (hne : s.dropWhile p ≠ []) : (s.dropWhile p).getLast? = s.getLast? := by
  induction s with
  | nil => simp at hne
  | cons a t ih =>
    rw [List.dropWhile_cons] at hne ⊢
    by_cases hp : p a
    · simp only [hp, if_true] at hne ⊢
      rw [ih hne]
      cases t with
      | nil => simp [List.dropWhile] at hne
      | cons b t2 => simp [List.getLast?_cons_cons]
    · simp [hp]

theorem head_stripList_false {p : Char → Bool} {s : Str} {c : Char}
    (h : (stripList p s).head? = some c) : p c = false := by
  unfold stripList at h
  rw [List.head?_reverse] at h
  have hne : (s.dropWhile p).reverse.dropWhile p ≠ [] := by
    intro hnil
    rw [hnil] at h
    simp at h
  rw [getLast_dropWhile hne] at h
  rw [List.getLast?_reverse] at h
  exact head_dropWhile_false h

theorem getLast_stripList_false {p : Char → Bool} {s : Str} {c : Char}
    (h : (stripList p s).getLast? = some c) : p c = false := by
  unfold stripList at h
  rw [List.getLast?_reverse] at h
  exact head_dropWhile_false h

theorem char_ofNat_toNat {n : Nat} (h : n < 55295) : (Char.ofNat n).toNat = n := by
  unfold Char.ofNat
  rw [dif_pos]
  · rfl
  · left
    omega

theorem pyLowerChar_toNat_of_upper {c : Char} (h : 65 ≤ c.toNat ∧ c.toNat ≤ 90) :
    (pyLowerChar c).toNat = c.toNat + 32 := by
  unfold pyLowerChar
  rw [if_pos h, char_ofNat_toNat (by omega)]

theorem pyLowerChar_of_not_upper {c : Char} (h : ¬(65 ≤ c.toNat ∧ c.toNat ≤ 90)) :
    pyLowerChar c = c := if_neg h

theorem pyUpper_pyLowerChar (c : Char) : pyUpper (pyLowerChar c) = false := by
  by_cases h : 65 ≤ c.toNat ∧ c.toNat ≤ 90
  · unfold pyUpper
    rw [pyLowerChar_toNat_of_upper h]
    have h90 : ¬((pyLowerChar c).toNat ≤ 90) := by
      rw [pyLowerChar_toNat_of_upper h]
      omega
    rw [pyLowerChar_toNat_of_upper h] at h90
    simp [h90]
  · rw [pyLowerChar_of_not_upper h]
    unfold pyUpper
    by_cases h90 : c.toNat ≤ 90
    · have h65 : ¬(65 ≤ c.toNat) := fun hh => h ⟨hh, h90⟩
      simp [h65]
    · simp [h90]

theorem pyWord_pyLowerChar {c : Char} (h : pyWord c = true) :
    pyWord (pyLowerChar c) = true := by
  by_cases hu : 65 ≤ c.toNat ∧ c.toNat ≤ 90
  · have ht := pyLowerChar_toNat_of_upper hu
    unfold pyWord pyLower
    rw [ht]
    have h1 : 97 ≤ c.toNat + 32 := by omega
    have h2 : c.toNat + 32 ≤ 122 := by omega
    simp [h1, h2]
  · rw [pyLowerChar_of_not_upper hu]
    exact h

theorem identChar_of_word_not_upper {c : Char} (hw : pyWord c = true)
    (hu : pyUpper c = false) : identChar c = true := by
  unfold pyWord at hw
  unfold identChar
  rw [hu] at hw
  simpa using hw

theorem head_take_63 {l : Str} : (l.take 63).head? = l.head? := by
  cases l with
  | nil => rfl
  | cons a t => rfl

theorem take_63_ne_nil {l : Str} (h : l ≠ []) : l.take 63 ≠ [] := by
  cases l with
  | nil => exact absurd rfl h
  | cons a t => simp

/-- Every character of the Loader's sanitized identifier is in `[a-z0-9_]`
(in the model; over Python this holds for ASCII input, since the Unicode `\w`
class would additionally retain non-ASCII word characters). -/
theorem mem_sanitizeIdentifier_ident {name : Str} {b : Bool} {c : Char}
    (h : c ∈ sanitizeIdentifier name b) : identChar c = true := by
  unfold sanitizeIdentifier at h
  have h5 := (List.take_sublist 63 _).subset h
  set s0 := if b then name else pyStem name with hs0
  set s1 := (stripList pySpace s0).map pyLowerChar with hs1
  set s2 := collapseRuns (fun c => pySpace c || c = '.' || c = '-') '_' s1 with hs2
  set s3 := s2.filter pyWord with hs3
  set s4 := stripList (· = '_') (collapseRuns (· = '_') '_' s3) with hs4
  have hmem_s4 : ∀ x ∈ s4, identChar x = true := by
    intro x hx
    have hx2 := mem_of_mem_stripList hx
    rcases mem_collapseRuns hx2 with hx3 | hx3
    · rw [hs3, List.mem_filter] at hx3
      obtain ⟨hx4, hword⟩ := hx3
      rcases mem_collapseRuns (hs2 ▸ hx4) with hx5 | hx5
      · rw [hs1] at hx5
        rcases List.mem_map.mp hx5 with ⟨d, _, rfl⟩
        exact identChar_of_word_not_upper hword (pyUpper_pyLowerChar d)
      · subst hx5
        decide
    · subst hx3
      decide
  by_cases hp : needsPrefix s4 = true
  · rw [if_pos hp] at h5
    rcases List.mem_append.mp h5 with hpre | hrest
    · have hall : (kindPrefix b).all identChar = true := by cases b <;> decide
      exact List.all_eq_true.mp hall c hpre
    · by_cases hnil : s4 = []
      · rw [if_pos hnil] at hrest
        exact List.all_eq_true.mp (show ("unnamed".toList).all identChar = true by decide) c hrest
      · rw [if_neg hnil] at hrest
        exact hmem_s4 c hrest
  · rw [if_neg hp] at h5
    exact hmem_s4 c h5

/-- The Loader's sanitized identifier is nonempty. -/
theorem sanitizeIdentifier_ne_nil (name : Str) (b : Bool) :
    sanitizeIdentifier name b ≠ [] := by
  unfold sanitizeIdentifier
  apply take_63_ne_nil
  set s4 := stripList (· = '_') (collapseRuns (· = '_') '_'
    (((stripList pySpace (if b then name else pyStem name)).map pyLowerChar
      |> collapseRuns (fun c => pySpace c || c = '.' || c = '-') '_').filter pyWord)) with hs4
  by_cases hp : needsPrefix s4 = true
  · rw [if_pos hp]
    cases b <;> simp [kindPrefix]
  · rw [if_neg hp]
    intro hnil
    rw [hnil] at hp
    exact hp rfl

/-- The Loader's sanitized identifier does not start with a digit. -/
theorem sanitizeIdentifier_head_not_digit {name : Str} {b : Bool} {c : Char}
    (h : (sanitizeIdentifier name b).head? = some c) : pyDigit c = false := by
  unfold sanitizeIdentifier at h
  rw [head_take_63] at h
  set s4 := stripList (· = '_') (collapseRuns (· = '_') '_'
    (((stripList pySpace (if b then name else pyStem name)).map pyLowerChar
      |> collapseRuns (fun c => pySpace c || c = '.' || c = '-') '_').filter pyWord)) with hs4
  by_cases hp : needsPrefix s4 = true
  · rw [if_pos hp] at h
    have hk : ∃ c0 rest, kindPrefix b = c0 :: rest ∧ pyDigit c0 = false := by
      cases b
      · exact ⟨'t', "bl_".toList, rfl, by decide⟩
      · exact ⟨'c', "ol_".toList, rfl, by decide⟩
    obtain ⟨c0, rest, hkeq, hc0⟩ := hk
    rw [hkeq, List.cons_append, List.head?_cons] at h
    simp only [Option.some.injEq] at h
    subst h
    exact hc0
  · rw [if_neg hp] at h
    cases hs : s4 with
    | nil =>
      rw [hs] at hp
      exact absurd rfl hp
    | cons c0 t =>
      rw [hs] at h hp
      simp only [List.head?_cons, Option.some.injEq] at h
      subst h
      unfold needsPrefix at hp
      simpa using hp

/-- The Loader's sanitized identifier has at most 63 characters. -/
theorem sanitizeIdentifier_length_le (name : Str) (b : Bool) :
    (sanitizeIdentifier name b).length ≤ 63 := by
  unfold sanitizeIdentifier
  exact List.length_take_le 63 _

theorem pyUpper_replaceChar_false {a b x : Char} (hb : pyUpper b = false)
    (hx : pyUpper x = false) : pyUpper (if x = a then b else x) = false := by
  by_cases h : x = a
  · rw [if_pos h]
    exact hb
  · rw [if_neg h]
    exact hx

/-- Every character of the Normalizer's sanitized column name is in
`[a-z0-9_]` (in the model; over Python this holds for ASCII input). -/
theorem mem_sanitizeColumnName_ident {name : Str} {c : Char}
    (h : c ∈ sanitizeColumnName name) : identChar c = true := by
  unfold sanitizeColumnName at h
  have h5 := (List.take_sublist 63 _).subset h
  set s1 := (stripList pySpace name).map pyLowerChar with hs1
  set s2 := s1.map (fun c => if c = ' ' then '_' else c) with hs2
  set s3 := s2.map (fun c => if c = '-' then '_' else c) with hs3
  set s4 := s3.filter pyWord with hs4
  have hmem_s4 : ∀ x ∈ s4, identChar x = true := by
    intro x hx
    rw [hs4, List.mem_filter] at hx
    obtain ⟨hx3, hword⟩ := hx
    rw [hs3] at hx3
    rcases List.mem_map.mp hx3 with ⟨x2, hx2, rfl⟩
    rw [hs2] at hx2
    rcases List.mem_map.mp hx2 with ⟨x1, hx1, rfl⟩
    rw [hs1] at hx1
    rcases List.mem_map.mp hx1 with ⟨d, _, rfl⟩
    refine identChar_of_word_not_upper hword ?_
    exact pyUpper_replaceChar_false (by decide)
      (pyUpper_replaceChar_false (by decide) (pyUpper_pyLowerChar d))
  by_cases hp : needsPrefix s4 = true
  · rw [if_pos hp] at h5
    rcases List.mem_append.mp h5 with hpre | hrest
    · exact List.all_eq_true.mp (show ("col_".toList).all identChar = true by decide) c hpre
    · by_cases hnil : s4 = []
      · rw [if_pos hnil] at hrest
        exact List.all_eq_true.mp (show ("unnamed".toList).all identChar = true by decide) c hrest
      · rw [if_neg hnil] at hrest
        exact hmem_s4 c hrest
  · rw [if_neg hp] at h5
    exact hmem_s4 c h5

theorem searchFresh_eq_cand (used : List Str) (cand : Nat → Str) :
    ∀ fuel k, ∃ m, searchFresh used cand k fuel = cand m := by
  intro fuel
  induction fuel with
  | zero => intro k; exact ⟨k, rfl⟩
  | succ fuel ih =>
    intro k
    rw [searchFresh]
    by_cases hc : cand k ∈ used
    · rw [if_pos hc]
      exact ih (k + 1)
    · rw [if_neg hc]
      exact ⟨k, rfl⟩

theorem freshFrom_eq_cand (used : List Str) (cand : Nat → Str) :
    ∃ m, freshFrom used cand = cand m :=
  searchFresh_eq_cand used cand (used.length + 1) 0

theorem mem_dedupAux {u : Str} :
    ∀ {seen cols : List Str}, u ∈ dedupAux seen cols →
      ∃ c ∈ cols, ∃ k, u = dedupCandidates c k := by
  intro seen cols
  induction cols generalizing seen with
  | nil => intro h; simp [dedupAux] at h
  | cons c cs ih =>
    intro h
    rw [dedupAux] at h
    rcases List.mem_cons.mp h with h1 | h1
    · rcases freshFrom_eq_cand seen (dedupCandidates c) with ⟨m, hm⟩
      exact ⟨c, List.mem_cons_self c cs, m, h1.trans hm⟩
    · rcases ih h1 with ⟨c2, hc2, k, hk⟩
      exact ⟨c2, List.mem_cons_of_mem c hc2, k, hk⟩

theorem mem_dedupCols {u : Str} {cols : List Str} (h : u ∈ dedupCols cols) :
    ∃ c ∈ cols, ∃ k, u = dedupCandidates c k :=
  mem_dedupAux h

theorem dedupAux_length : ∀ (seen cols : List Str), (dedupAux seen cols).length = cols.length := by
  intro seen cols
  induction cols generalizing seen with
  | nil => rfl
  | cons c cs ih => simp [dedupAux, ih]

theorem dedupCols_length (cols : List Str) : (dedupCols cols).length = cols.length :=
  dedupAux_length [] cols

theorem dedupCols_ne_nil {cols : List Str} (h : cols ≠ []) : dedupCols cols ≠ [] := by
  intro hnil
  have := dedupCols_length cols
  rw [hnil] at this
  exact h (List.length_eq_zero.mp this.symm)

theorem mem_dedupCandidates {x : Char} {c : Str} {k : Nat}
    (h : x ∈ dedupCandidates c k) : x ∈ c ∨ x = '_' ∨ pyDigit x = true := by
  cases k with
  | zero => exact Or.inl h
  | succ k =>
    rw [dedupCandidates] at h
    rcases List.mem_append.mp h with h1 | h1
    · exact Or.inl h1
    · rcases List.mem_cons.mp h1 with h2 | h2
      · exact Or.inr (Or.inl h2)
      · exact Or.inr (Or.inr (mem_natStr_digit h2))

theorem dedupCandidates_head {c : Str} (k : Nat) (hc : c ≠ []) :
    (dedupCandidates c k).head? = c.head? := by
  cases k with
  | zero => rfl
  | succ k =>
    rw [dedupCandidates]
    cases c with
    | nil => exact absurd rfl hc
    | cons a t => rfl

theorem dedupCandidates_ne_nil {c : Str} (k : Nat) (hc : c ≠ []) :
    dedupCandidates c k ≠ [] := by
  cases k with
  | zero => exact hc
  | succ k =>
    rw [dedupCandidates]
    simp

/-- C2, counterexample.  Loading a CSV whose two header cells both sanitize to
the same 63-character name makes the Loader create (and COPY into) a table
whose second column name carries the deduplication suffix `_1` and is 65
characters long, exceeding the 63-character bound the claim asserts for every
identifier sent to the store. -/
theorem C2_counterexample :
    ((processFile (fun _ => none) "public".toList []
        ⟨"t.csv".toList,
          [[List.replicate 63 'x', List.replicate 63 'x'], ["1".toList, "2".toList]]⟩).1.lookup
        "t".toList) =
      some ⟨[List.replicate 63 'x', List.replicate 63 'x' ++ "_1".toList],
        [["1".toList, "2".toList]]⟩ ∧
    (List.replicate 63 'x' ++ "_1".toList).length = 65 := by
  constructor
  · decide
  · decide

/-- C2, amended.  For ASCII input, every identifier the Loader derives is
nonempty, lowercase, drawn from `[a-z0-9_]`, and does not start with a digit;
the table name and each column name are at most 63 characters long *before*
per-row deduplication, but the deduplication suffix `_1`, `_2`, … is appended
after truncation and can push a final column name past 63 characters (and the
guarantee is restricted to ASCII input, since Python's Unicode `\w` class
retains non-ASCII word characters that are outside `[a-z0-9_]`). -/
theorem C2_amended (name : Str) (hname : allAscii name = true)
    (hdr : List Str) (hhdr : ∀ cell ∈ hdr, allAscii cell = true) :
    (sanitizeIdentifier name false ≠ [] ∧
      (∀ c ∈ sanitizeIdentifier name false, identChar c = true) ∧
      (∀ c, (sanitizeIdentifier name false).head? = some c → pyDigit c = false) ∧
      (sanitizeIdentifier name false).length ≤ 63) ∧
    (∀ cell ∈ hdr, (sanitizeIdentifier cell true).length ≤ 63) ∧
    (∀ col ∈ dedupCols (hdr.map (fun c => sanitizeIdentifier c true)),
      col ≠ [] ∧ (∀ c ∈ col, identChar c = true) ∧
      (∀ c, col.head? = some c → pyDigit c = false)) := by
  refine ⟨⟨sanitizeIdentifier_ne_nil name false,
    fun c hc => mem_sanitizeIdentifier_ident hc,
    fun c hc => sanitizeIdentifier_head_not_digit hc,
    sanitizeIdentifier_length_le name false⟩,
    fun cell _ => sanitizeIdentifier_length_le cell true, ?_⟩
  intro col hcol
  rcases mem_dedupCols hcol with ⟨c0, hc0mem, k, rfl⟩
  rcases List.mem_map.mp hc0mem with ⟨cell, _, rfl⟩
  refine ⟨dedupCandidates_ne_nil k (sanitizeIdentifier_ne_nil cell true), ?_, ?_⟩
  · intro c hc
    rcases mem_dedupCandidates hc with h1 | h1 | h1
    · exact mem_sanitizeIdentifier_ident h1
    · subst h1
      decide
    · unfold identChar
      rw [h1]
      simp
  · intro c hc
    rw [dedupCandidates_head k (sanitizeIdentifier_ne_nil cell true)] at hc
    exact sanitizeIdentifier_head_not_digit hc

/-- Witness for C2's amended theorem at a concrete input. -/
theorem C2_witness :
    allAscii "My File.csv".toList = true ∧
    (∀ cell ∈ ["Region".toList, "Region".toList], allAscii cell = true) ∧
    ((sanitizeIdentifier "My File.csv".toList false ≠ [] ∧
      (∀ c ∈ sanitizeIdentifier "My File.csv".toList false, identChar c = true) ∧
      (∀ c, (sanitizeIdentifier "My File.csv".toList false).head? = some c → pyDigit c = false) ∧
      (sanitizeIdentifier "My File.csv".toList false).length ≤ 63) ∧
    (∀ cell ∈ ["Region".toList, "Region".toList],
      (sanitizeIdentifier cell true).length ≤ 63) ∧
    (∀ col ∈ dedupCols (["Region".toList, "Region".toList].map
        (fun c => sanitizeIdentifier c true)),
      col ≠ [] ∧ (∀ c ∈ col, identChar c = true) ∧
      (∀ c, col.head? = some c → pyDigit c = false))) :=
  ⟨by decide, by decide,
    C2_amended "My File.csv".toList (by decide)
      ["Region".toList, "Region".toList] (by decide)⟩

/-- C5, counterexample.  The Normalizer's column sanitizer and the Loader's
identifier sanitizer disagree on the input `"a.b"`: the claim that the three
components share one sanitizer producing equal results on every input fails. -/
theorem C5_counterexample :
    sanitizeColumnName "a.b".toList ≠ sanitizeIdentifier "a.b".toList true := by
  decide

/-- C5, amended.  The Collector, Normalizer and Loader each implement their
own sanitizer and the three do not produce equal results for every input: the
Loader's follows §4.1 (dot runs become one underscore, repeated underscores
collapse, edge underscores are stripped, 63-character cap), while the
Normalizer's column sanitizer deletes dots outright and keeps repeated or
leading/trailing underscores, and the Collector's filename sanitizer caps the
base at 50 characters before re-appending the extension. -/
theorem C5_amended :
    sanitizeIdentifier "a.b".toList true = "a_b".toList ∧
    sanitizeColumnName "a.b".toList = "ab".toList ∧
    sanitizeIdentifier "a__b".toList true = "a_b".toList ∧
    sanitizeColumnName "a__b".toList = "a__b".toList ∧
    sanitizeIdentifier "_a_".toList true = "a".toList ∧
    sanitizeColumnName "_a_".toList = "_a_".toList ∧
    sanitizeFilename (List.replicate 55 'a') ".csv".toList 50 =
      List.replicate 50 'a' ++ ".csv".toList ∧
    sanitizeIdentifier (List.replicate 55 'a') true = List.replicate 55 'a' := by
  refine ⟨by decide, by decide, by decide, by decide, by decide, by decide, ?_, by decide⟩
  decide

/-!
Lemmas for the Normalizer's cell cleanup and header probe.
-/

theorem getLast_cons_of_ne_nil {a : Char} {l : Str} (h : l ≠ []) :
    (a :: l).getLast? = l.getLast? := by
  cases l with
  | nil => exact absurd rfl h
  | cons b t => exact List.getLast?_cons_cons

/-- The character written by the two single-character replacements of the
cell cleanup is never `'\n'` and never `'\r'`. -/
theorem cleanCell_no_newline {cell : Str} {c : Char} (h : c ∈ cleanCell cell) :
    c ≠ '\n' ∧ c ≠ '\r' := by
  unfold cleanCell replaceChar at h
  rcases List.mem_map.mp h with ⟨d, hd, rfl⟩
  rcases List.mem_map.mp hd with ⟨e, _, rfl⟩
  constructor
  · by_cases he : e = '\n'
    · rw [if_pos he]
      by_cases hsp : (' ' : Char) = '\r' <;> simp [hsp]
    · rw [if_neg he]
      by_cases hr : e = '\r'
      · rw [if_pos hr]
        decide
      · rw [if_neg hr]
        exact he
  · by_cases he : e = '\n'
    · rw [if_pos he]
      by_cases hsp : (' ' : Char) = '\r' <;> simp [hsp]
    · rw [if_neg he]
      by_cases hr : e = '\r'
      · rw [if_pos hr]
        decide
      · rw [if_neg hr]
        exact hr

theorem head_replaceCRLF {s : Str} {c0 : Char} (h : s.head? = some c0)
    (hc : c0 ≠ '\r') : (replaceCRLF s).head? = some c0 := by
  match s with
  | [] => simp at h
  | [c] =>
    simp only [List.head?_cons, Option.some.injEq] at h
    subst h
    rfl
  | c :: d :: rest =>
    simp only [List.head?_cons, Option.some.injEq] at h
    subst h
    rw [replaceCRLF, if_neg (fun hpair => hc hpair.1)]
    rfl

theorem getLast_replaceCRLF :
    ∀ {s : Str} {d : Char}, s.getLast? = some d → d ≠ '\n' →
      (replaceCRLF s).getLast? = some d := by
  intro s
  induction s using replaceCRLF.induct with
  | case1 =>
    intro d h _
    simp at h
  | case2 c =>
    intro d h _
    rw [replaceCRLF]
    exact h
  | case3 c d0 rest hpair ih =>
    intro d h hd
    obtain ⟨rfl, rfl⟩ := hpair
    rw [replaceCRLF, if_pos ⟨rfl, rfl⟩]
    cases rest with
    | nil =>
      rw [List.getLast?_cons_cons] at h
      simp only [List.getLast?_singleton, Option.some.injEq] at h
      exact absurd h.symm hd
    | cons r rs =>
      rw [List.getLast?_cons_cons, List.getLast?_cons_cons] at h
      have hres := ih h hd
      have hne : replaceCRLF (r :: rs) ≠ [] := by
        intro hnil
        rw [hnil] at hres
        simp at hres
      rw [getLast_cons_of_ne_nil hne]
      exact hres
  | case4 c d0 rest hpair ih =>
    intro d h hd
    rw [replaceCRLF, if_neg hpair]
    rw [List.getLast?_cons_cons] at h
    have hres := ih h hd
    have hne : replaceCRLF (d0 :: rest) ≠ [] := by
      intro hnil
      rw [hnil] at hres
      simp at hres
    rw [getLast_cons_of_ne_nil hne]
    exact hres

theorem pySpace_newline_mem : pySpace '\n' = true ∧ pySpace '\r' = true := by decide

/-- A nonempty cleaned cell starts with a non-whitespace character. -/
theorem cleanCell_head_not_space {cell : Str} {c : Char}
    (h : (cleanCell cell).head? = some c) : pySpace c = false := by
  unfold cleanCell at h
  cases hs : (stripList pySpace cell).head? with
  | none =>
    have hnil : stripList pySpace cell = [] := List.head?_eq_none_iff.mp hs
    rw [hnil] at h
    simp [replaceCRLF, replaceChar] at h
  | some c0 =>
    have hc0 : pySpace c0 = false := head_stripList_false hs
    have hc0r : c0 ≠ '\r' := by
      intro hr
      rw [hr] at hc0
      simp [pySpace_newline_mem.2] at hc0
    have h1 := head_replaceCRLF hs hc0r
    unfold replaceChar at h
    rw [List.head?_map, List.head?_map, h1] at h
    simp only [Option.map_some', Option.some.injEq] at h
    subst h
    have hc0n : c0 ≠ '\n' := by
      intro hn
      rw [hn] at hc0
      simp [pySpace_newline_mem.1] at hc0
    rw [if_neg hc0n, if_neg hc0r]
    exact hc0

/-- A nonempty cleaned cell ends with a non-whitespace character. -/
theorem cleanCell_getLast_not_space {cell : Str} {c : Char}
    (h : (cleanCell cell).getLast? = some c) : pySpace c = false := by
  unfold cleanCell at h
  cases hs : (stripList pySpace cell).getLast? with
  | none =>
    have hnil : stripList pySpace cell = [] := List.getLast?_eq_none_iff.mp hs
    rw [hnil] at h
    simp [replaceCRLF, replaceChar] at h
  | some c0 =>
    have hc0 : pySpace c0 = false := getLast_stripList_false hs
    have hc0n : c0 ≠ '\n' := by
      intro hn
      rw [hn] at hc0
      simp [pySpace_newline_mem.1] at hc0
    have hc0r : c0 ≠ '\r' := by
      intro hr
      rw [hr] at hc0
      simp [pySpace_newline_mem.2] at hc0
    have h1 := getLast_replaceCRLF hs hc0n
    unfold replaceChar at h
    rw [List.getLast?_map, List.getLast?_map, h1] at h
    simp only [Option.map_some', Option.some.injEq] at h
    subst h
    rw [if_neg hc0n, if_neg hc0r]
    exact hc0

theorem length_filter_partition (p : List Str → Bool) (l : List (List Str)) :
    (l.filter p).length + (l.filter (fun a => !(p a))).length = l.length := by
  induction l with
  | nil => rfl
  | cons a t ih =>
    by_cases hp : p a = true <;> simp [List.filter_cons, hp] <;> omega

theorem findHeader_all_blank :
    ∀ (n : Nat) (rows : List (List Str)),
      (∀ r ∈ rows.take n, rowNonblank r = false) →
      findHeader n rows = (none, rows.drop n) := by
  intro n
  induction n with
  | zero => intro rows _; rfl
  | succ n ih =>
    intro rows hblank
    cases rows with
    | nil => rfl
    | cons r rs =>
      rw [findHeader]
      have hr : rowNonblank r = false := hblank r (by simp)
      rw [hr]
      simp only [Bool.false_eq_true, if_false]
      exact ih rs (fun r2 hr2 => hblank r2 (by simp [hr2]))

/-- C6.  For every CSV whose header is found within the 5-row probe window:
no cell of the normalized output — header or data — contains a raw `'\r'` or
`'\n'`; every retained data cell is trimmed (no leading or trailing
whitespace); and the output data-row count is the input data-row count
(the rows after the header) minus the number of all-blank rows among them.
The `allAscii` hypothesis bounds the model's fidelity to Python's
Unicode-aware `strip`/`\w`. -/
theorem C6_theorem (rows : List (List Str)) (hdr : List Str) (rest : List (List Str))
    (hfound : findHeader 5 rows = (some hdr, rest))
    (hascii : ∀ row ∈ rows, ∀ cell ∈ row, allAscii cell = true) :
    (∀ hcols, (cleanCsvFile rows).header = some hcols →
      ∀ col ∈ hcols, ∀ c ∈ col, c ≠ '\n' ∧ c ≠ '\r') ∧
    (∀ row ∈ (cleanCsvFile rows).dataRows, ∀ cell ∈ row,
      (∀ c ∈ cell, c ≠ '\n' ∧ c ≠ '\r') ∧
      (∀ c, cell.head? = some c → pySpace c = false) ∧
      (∀ c, cell.getLast? = some c → pySpace c = false)) ∧
    (cleanCsvFile rows).dataRows.length =
      rest.length - (rest.filter (fun r => !(rowNonblank r))).length := by
  have hout : cleanCsvFile rows =
      { header := some (dedupCols (hdr.map sanitizeColumnName))
        warned := false
        dataRows := (rest.filter rowNonblank).map cleanRow } := by
    unfold cleanCsvFile
    rw [hfound]
  rw [hout]
  refine ⟨?_, ?_, ?_⟩
  · intro hcols hh col hcol c hc
    simp only [Option.some.injEq] at hh
    subst hh
    rcases mem_dedupCols hcol with ⟨c0, hc0mem, k, rfl⟩
    rcases List.mem_map.mp hc0mem with ⟨cell, _, rfl⟩
    have hident : identChar c = true := by
      rcases mem_dedupCandidates hc with h1 | h1 | h1
      · exact mem_sanitizeColumnName_ident h1
      · subst h1
        decide
      · unfold identChar
        rw [h1]
        simp
    constructor
    · intro hn
      rw [hn] at hident
      exact absurd hident (by decide)
    · intro hr
      rw [hr] at hident
      exact absurd hident (by decide)
  · intro row hrow cell hcell
    rcases List.mem_map.mp hrow with ⟨r0, _, rfl⟩
    rcases List.mem_map.mp hcell with ⟨c0, _, rfl⟩
    exact ⟨fun c hc => cleanCell_no_newline hc,
      fun c hc => cleanCell_head_not_space hc,
      fun c hc => cleanCell_getLast_not_space hc⟩
  · simp only [List.length_map]
    have := length_filter_partition rowNonblank rest
    omega

/-- Witness for C6 at a CSV with an embedded CRLF cell and one blank row. -/
theorem C6_witness :
    findHeader 5 [["H One".toList, "H-Two".toList],
        [" a\r\nb ".toList, " c ".toList], ["".toList, "  ".toList]] =
      (some ["H One".toList, "H-Two".toList],
        [[" a\r\nb ".toList, " c ".toList], ["".toList, "  ".toList]]) ∧
    (∀ row ∈ [["H One".toList, "H-Two".toList],
        [" a\r\nb ".toList, " c ".toList], ["".toList, "  ".toList]],
      ∀ cell ∈ row, allAscii cell = true) ∧
    ((∀ hcols, (cleanCsvFile [["H One".toList, "H-Two".toList],
        [" a\r\nb ".toList, " c ".toList], ["".toList, "  ".toList]]).header = some hcols →
      ∀ col ∈ hcols, ∀ c ∈ col, c ≠ '\n' ∧ c ≠ '\r') ∧
    (∀ row ∈ (cleanCsvFile [["H One".toList, "H-Two".toList],
        [" a\r\nb ".toList, " c ".toList], ["".toList, "  ".toList]]).dataRows, ∀ cell ∈ row,
      (∀ c ∈ cell, c ≠ '\n' ∧ c ≠ '\r') ∧
      (∀ c, cell.head? = some c → pySpace c = false) ∧
      (∀ c, cell.getLast? = some c → pySpace c = false)) ∧
    (cleanCsvFile [["H One".toList, "H-Two".toList],
        [" a\r\nb ".toList, " c ".toList], ["".toList, "  ".toList]]).dataRows.length =
      [[" a\r\nb ".toList, " c ".toList], ["".toList, "  ".toList]].length -
        ([[" a\r\nb ".toList, " c ".toList], ["".toList, "  ".toList]].filter
          (fun r => !(rowNonblank r))).length) :=
  ⟨by decide, by decide,
    C6_theorem [["H One".toList, "H-Two".toList],
        [" a\r\nb ".toList, " c ".toList], ["".toList, "  ".toList]]
      ["H One".toList, "H-Two".toList]
      [[" a\r\nb ".toList, " c ".toList], ["".toList, "  ".toList]]
      (by decide) (by decide)⟩

/-- C7, counterexample.  A CSV whose first five rows are all blank followed by
the row `[" x "]` is treated as headerless with a warning, but the remaining
row is *not* passed through unchanged: it is cleaned to `["x"]`. -/
theorem C7_counterexample :
    (cleanCsvFile [[], [], [], [], [], [" x ".toList]]).header = none ∧
    (cleanCsvFile [[], [], [], [], [], [" x ".toList]]).warned = true ∧
    (cleanCsvFile [[], [], [], [], [], [" x ".toList]]).dataRows = [["x".toList]] ∧
    (cleanCsvFile [[], [], [], [], [], [" x ".toList]]).dataRows ≠ [[" x ".toList]] := by
  refine ⟨by decide, by decide, by decide, by decide⟩

/-- C7, amended.  When none of the first 5 rows has a non-blank cell, the
Normalizer emits the warning and writes no header row, but the remaining rows
are not passed through unchanged: they go through the standard row cleanup
(all-blank rows dropped, cells trimmed, line breaks collapsed to spaces). -/
theorem C7_amended (rows : List (List Str))
    (hblank : ∀ r ∈ rows.take 5, rowNonblank r = false) :
    cleanCsvFile rows =
      { header := none
        warned := true
        dataRows := ((rows.drop 5).filter rowNonblank).map cleanRow } := by
  have hfh := findHeader_all_blank 5 rows hblank
  unfold cleanCsvFile
  rw [hfh]

/-- Witness for C7's amended theorem. -/
theorem C7_witness :
    (∀ r ∈ ([[], [], [], [], [], [" x ".toList]] : List (List Str)).take 5,
      rowNonblank r = false) ∧
    cleanCsvFile [[], [], [], [], [], [" x ".toList]] =
      { header := none
        warned := true
        dataRows := ((([[], [], [], [], [], [" x ".toList]] :
            List (List Str)).drop 5).filter rowNonblank).map cleanRow } :=
  ⟨by decide, C7_amended [[], [], [], [], [], [" x ".toList]] (by decide)⟩

/-- C8.  Staging two files in sequence into the same directory — each staged
name produced by the Collector's sanitizer and made unique against the
directory contents, the second seeing the first's name on disk — always
yields two distinct filenames, and neither collides with a pre-existing name,
whatever the inputs (in particular when the two names sanitize identically,
and whether each file is loose or a ZIP member). -/
theorem C8_theorem (dir : List Str) (b1 e1 b2 e2 : Str) :
    generateUniqueFilename dir (sanitizeFilename b1 e1 50) ∉ dir ∧
    generateUniqueFilename
      (generateUniqueFilename dir (sanitizeFilename b1 e1 50) :: dir)
      (sanitizeFilename b2 e2 50) ∉ dir ∧
    generateUniqueFilename dir (sanitizeFilename b1 e1 50) ≠
      generateUniqueFilename
        (generateUniqueFilename dir (sanitizeFilename b1 e1 50) :: dir)
        (sanitizeFilename b2 e2 50) := by
  have h1 : generateUniqueFilename dir (sanitizeFilename b1 e1 50) ∉ dir :=
    freshFrom_not_mem dir _ (uniqueCandidates_injective _)
  have h2 : generateUniqueFilename
      (generateUniqueFilename dir (sanitizeFilename b1 e1 50) :: dir)
      (sanitizeFilename b2 e2 50) ∉
      (generateUniqueFilename dir (sanitizeFilename b1 e1 50) :: dir) :=
    freshFrom_not_mem _ _ (uniqueCandidates_injective _)
  refine ⟨h1, fun hmem => h2 (List.mem_cons_of_mem _ hmem), fun heq => h2 ?_⟩
  rw [← heq]
  exact List.mem_cons_self _ _

/-!
Store lemmas for the Loader.
-/

theorem createIfNotExists_eq_of_some {t : Str} {cols : List Str} {db : DB} {tab : Table}
    (h : db.lookup t = some tab) : createIfNotExists t cols db = db := by
  unfold createIfNotExists
  rw [h]

theorem lookup_createIfNotExists_self_none {t : Str} {cols : List Str} {db : DB}
    (h : db.lookup t = none) :
    (createIfNotExists t cols db).lookup t = some ⟨cols, []⟩ := by
  unfold createIfNotExists
  rw [h]
  simp [List.lookup]

theorem lookup_createIfNotExists_preserve {u t : Str} {cols : List Str} {db : DB}
    {tab : Table} (h : db.lookup u = some tab) :
    (createIfNotExists t cols db).lookup u = some tab := by
  unfold createIfNotExists
  cases h2 : db.lookup t with
  | some v => exact h
  | none =>
    have hne : u ≠ t := by
      intro heq
      rw [heq, h2] at h
      cases h
    have hb : (u == t) = false := by simp [hne]
    simp [List.lookup, hb]
    exact h

theorem dbAppendRows_cons (t : Str) (newRows : List (List Str)) (k : Str) (v : Table)
    (ps : DB) :
    dbAppendRows t newRows ((k, v) :: ps) =
      (if k = t then (k, Table.mk v.cols (v.rows ++ newRows)) else (k, v)) ::
        dbAppendRows t newRows ps := by
  unfold dbAppendRows
  rw [List.map_cons]

theorem lookup_dbAppendRows_self (t : Str) (newRows : List (List Str)) (db : DB) :
    (dbAppendRows t newRows db).lookup t =
      (db.lookup t).map (fun tab => ⟨tab.cols, tab.rows ++ newRows⟩) := by
  induction db with
  | nil => rfl
  | cons p ps ih =>
    obtain ⟨k, v⟩ := p
    rw [dbAppendRows_cons]
    by_cases hk : k = t
    · subst hk
      rw [if_pos rfl]
      have h1 : List.lookup k ((k, Table.mk v.cols (v.rows ++ newRows)) ::
          dbAppendRows k newRows ps) = some ⟨v.cols, v.rows ++ newRows⟩ := by
        simp [List.lookup]
      have h2 : List.lookup k ((k, v) :: ps) = some v := by
        simp [List.lookup]
      rw [h1, h2]
      rfl
    · rw [if_neg hk]
      have hne : t ≠ k := fun heq => hk heq.symm
      have hb : (t == k) = false := by simp [hne]
      have h1 : List.lookup t ((k, v) :: dbAppendRows t newRows ps) =
          List.lookup t (dbAppendRows t newRows ps) := by
        simp [List.lookup, hb]
      have h2 : List.lookup t ((k, v) :: ps) = List.lookup t ps := by
        simp [List.lookup, hb]
      rw [h1, h2]
      exact ih

theorem lookup_dbAppendRows_ne {t u : Str} (newRows : List (List Str)) (db : DB)
    (h : u ≠ t) : (dbAppendRows t newRows db).lookup u = db.lookup u := by
  induction db with
  | nil => rfl
  | cons p ps ih =>
    obtain ⟨k, v⟩ := p
    rw [dbAppendRows_cons]
    by_cases hu : u = k
    · subst hu
      rw [if_neg (show ¬u = t from h)]
      simp [List.lookup]
    · have hb : (u == k) = false := by simp [hu]
      by_cases hk : k = t
      · subst hk
        rw [if_pos rfl]
        have h1 : List.lookup u ((k, Table.mk v.cols (v.rows ++ newRows)) ::
            dbAppendRows k newRows ps) = List.lookup u (dbAppendRows k newRows ps) := by
          simp [List.lookup, hb]
        have h2 : List.lookup u ((k, v) :: ps) = List.lookup u ps := by
          simp [List.lookup, hb]
        rw [h1, h2]
        exact ih
      · rw [if_neg hk]
        have h1 : List.lookup u ((k, v) :: dbAppendRows t newRows ps) =
            List.lookup u (dbAppendRows t newRows ps) := by
          simp [List.lookup, hb]
        have h2 : List.lookup u ((k, v) :: ps) = List.lookup u ps := by
          simp [List.lookup, hb]
        rw [h1, h2]
        exact ih

/-- Number of rows of table `t` in the store (0 when absent). -/
def rowCount (t : Str) (db : DB) : Nat :=
  match db.lookup t with
  | some tab => tab.rows.length
  | none => 0

theorem loadTabular_mismatch {o : CopyOracle} {sc : Str} {db : DB} {f : DFile}
    {finalCols : List Str} {dataRows : List (List Str)} {tab : Table}
    (hlook : db.lookup (sanitizeIdentifier f.name false) = some tab)
    (hcols : tab.cols ≠ []) (hne : finalCols ≠ tab.cols) :
    loadTabular o sc db f finalCols dataRows = (db, .mismatch finalCols tab.cols) := by
  simp only [loadTabular]
  rw [createIfNotExists_eq_of_some hlook]
  split
  · rename_i hnone
    rw [hlook] at hnone
    cases hnone
  · rename_i tab2 hsome
    rw [hlook] at hsome
    injection hsome with heq
    subst heq
    rw [if_neg hcols, if_pos hne]

theorem loadTabular_run {o : CopyOracle} {sc : Str} {db : DB} {f : DFile}
    {finalCols : List Str} {dataRows : List (List Str)} {tab : Table}
    (hlook1 : (createIfNotExists (sanitizeIdentifier f.name false) finalCols db).lookup
        (sanitizeIdentifier f.name false) = some tab)
    (htabcols : tab.cols = finalCols) (hcols : finalCols ≠ []) :
    loadTabular o sc db f finalCols dataRows =
      match o f.name with
      | some e =>
          (createIfNotExists (sanitizeIdentifier f.name false) finalCols db, .copyError e)
      | none =>
          (dbAppendRows (sanitizeIdentifier f.name false) dataRows
              (createIfNotExists (sanitizeIdentifier f.name false) finalCols db),
            .success sc (sanitizeIdentifier f.name false)) := by
  simp only [loadTabular]
  split
  · rename_i hnone
    rw [hlook1] at hnone
    cases hnone
  · rename_i tab2 hsome
    rw [hlook1] at hsome
    injection hsome with heq
    subst heq
    rw [if_neg (htabcols ▸ hcols), if_neg (not_not_intro htabcols.symm)]

theorem processFile_csv {o : CopyOracle} {sc : Str} {db : DB} {f : DFile}
    {hdr : List Str} {dat : List (List Str)}
    (hext : fileExt f = ".csv".toList) (hrows : f.rows = hdr :: dat) (hhdr : hdr ≠ []) :
    processFile o sc db f =
      ((loadTabular o sc db f
          (dedupCols (hdr.map (fun c => sanitizeIdentifier c true))) dat).1,
        some (loadTabular o sc db f
          (dedupCols (hdr.map (fun c => sanitizeIdentifier c true))) dat).2) := by
  unfold processFile
  rw [hext, hrows]
  simp [hhdr]

theorem processFile_excel {o : CopyOracle} {sc : Str} {db : DB} {f : DFile}
    {hdr : List Str} {dat : List (List Str)}
    (hext : fileExt f = ".xls".toList ∨ fileExt f = ".xlsx".toList)
    (hrows : f.rows = hdr :: dat) (hhdr : hdr ≠ []) (hdat : dat ≠ []) :
    processFile o sc db f =
      ((loadTabular o sc db f
          (dedupCols (hdr.map (fun c => sanitizeIdentifier c true))) dat).1,
        some (loadTabular o sc db f
          (dedupCols (hdr.map (fun c => sanitizeIdentifier c true))) dat).2) := by
  have hne : ¬(fileExt f = ".csv".toList) := by
    rcases hext with h | h <;> rw [h] <;> decide
  unfold processFile
  rw [if_neg hne, if_pos hext, hrows]
  simp [hhdr, hdat]

theorem finalCols_ne_nil {hdr : List Str} (hhdr : hdr ≠ []) :
    dedupCols (hdr.map (fun c => sanitizeIdentifier c true)) ≠ [] := by
  apply dedupCols_ne_nil
  intro hnil
  exact hhdr (List.map_eq_nil_iff.mp hnil)

/-- C3.  When the file's sanitized, deduplicated column list differs from the
live table's columns (exact sequence comparison), the Loader records a
mismatch outcome carrying both lists, leaves the whole store — in particular
the table's columns and rows — unchanged (`CREATE TABLE IF NOT EXISTS` is a
no-op and no ALTER exists), and the per-file loop continues with the
remaining files.  Holds for both the CSV and the Excel branch. -/
theorem C3_theorem (o : CopyOracle) (sc : Str) (db : DB) (f : DFile) (tab : Table)
    (hdr : List Str) (dat : List (List Str)) (rest : List DFile)
    (acc : List (Str × Outcome))
    (hrows : f.rows = hdr :: dat) (hhdr : hdr ≠ [])
    (hbranch : fileExt f = ".csv".toList ∨
      ((fileExt f = ".xls".toList ∨ fileExt f = ".xlsx".toList) ∧ dat ≠ []))
    (hlook : db.lookup (sanitizeIdentifier f.name false) = some tab)
    (hcols : tab.cols ≠ [])
    (hmm : dedupCols (hdr.map (fun c => sanitizeIdentifier c true)) ≠ tab.cols) :
    processFile o sc db f =
      (db, some (.mismatch (dedupCols (hdr.map (fun c => sanitizeIdentifier c true)))
        tab.cols)) ∧
    importFold o sc db acc (f :: rest) =
      importFold o sc db
        (acc ++ [(f.name, .mismatch (dedupCols (hdr.map (fun c => sanitizeIdentifier c true)))
          tab.cols)]) rest := by
  have hproc : processFile o sc db f =
      (db, some (.mismatch (dedupCols (hdr.map (fun c => sanitizeIdentifier c true)))
        tab.cols)) := by
    rcases hbranch with hcsv | ⟨hxl, hdat⟩
    · rw [processFile_csv hcsv hrows hhdr, loadTabular_mismatch hlook hcols hmm]
    · rw [processFile_excel hxl hrows hhdr hdat, loadTabular_mismatch hlook hcols hmm]
  refine ⟨hproc, ?_⟩
  rw [importFold, hproc]

/-- C4.  When the store raises a database error during the bulk COPY of one
file, the Loader's rollback returns to the last committed point (the
`CREATE TABLE IF NOT EXISTS` commit), so every table previously present —
including rows committed for other files — is unchanged; the file's outcome
records the database error (message plus optional diagnostic detail and
hint), and the per-file loop continues with the remaining files. -/
theorem C4_theorem (o : CopyOracle) (sc : Str) (db : DB) (f : DFile) (e : DbError)
    (hdr : List Str) (dat : List (List Str)) (rest : List DFile)
    (acc : List (Str × Outcome))
    (hrows : f.rows = hdr :: dat) (hhdr : hdr ≠ [])
    (hbranch : fileExt f = ".csv".toList ∨
      ((fileExt f = ".xls".toList ∨ fileExt f = ".xlsx".toList) ∧ dat ≠ []))
    (horacle : o f.name = some e)
    (hmatch : db.lookup (sanitizeIdentifier f.name false) = none ∨
      ∃ r, db.lookup (sanitizeIdentifier f.name false) =
        some ⟨dedupCols (hdr.map (fun c => sanitizeIdentifier c true)), r⟩) :
    (processFile o sc db f).2 = some (.copyError e) ∧
    (∀ u tabu, db.lookup u = some tabu → (processFile o sc db f).1.lookup u = some tabu) ∧
    importFold o sc db acc (f :: rest) =
      importFold o sc (processFile o sc db f).1 (acc ++ [(f.name, .copyError e)]) rest := by
  have hfc : dedupCols (hdr.map (fun c => sanitizeIdentifier c true)) ≠ [] :=
    finalCols_ne_nil hhdr
  have hproc : processFile o sc db f =
      (createIfNotExists (sanitizeIdentifier f.name false)
        (dedupCols (hdr.map (fun c => sanitizeIdentifier c true))) db,
        some (.copyError e)) := by
    have hlook1 : (createIfNotExists (sanitizeIdentifier f.name false)
        (dedupCols (hdr.map (fun c => sanitizeIdentifier c true))) db).lookup
        (sanitizeIdentifier f.name false) =
        some ⟨dedupCols (hdr.map (fun c => sanitizeIdentifier c true)),
          match db.lookup (sanitizeIdentifier f.name false) with
          | some tab => tab.rows
          | none => []⟩ := by
      rcases hmatch with hn | ⟨r, hs⟩
      · rw [hn]
        exact lookup_createIfNotExists_self_none hn
      · rw [hs, createIfNotExists_eq_of_some hs]
        exact hs
    rcases hbranch with hcsv | ⟨hxl, hdat⟩
    · rw [processFile_csv hcsv hrows hhdr, loadTabular_run hlook1 rfl hfc, horacle]
    · rw [processFile_excel hxl hrows hhdr hdat, loadTabular_run hlook1 rfl hfc, horacle]
  refine ⟨by rw [hproc], ?_, ?_⟩
  · intro u tabu hu
    rw [hproc]
    exact lookup_createIfNotExists_preserve hu
  · rw [importFold, hproc]

/-- C10.  When a CSV file's table did not exist before the call and the COPY
for it fails, the already-committed `CREATE TABLE IF NOT EXISTS` survives the
per-file rollback: the new table persists, empty, while the file's outcome
records the database error. -/
theorem C10_theorem (o : CopyOracle) (sc : Str) (db : DB) (f : DFile) (e : DbError)
    (hdr : List Str) (dat : List (List Str))
    (hext : fileExt f = ".csv".toList) (hrows : f.rows = hdr :: dat) (hhdr : hdr ≠ [])
    (hlook : db.lookup (sanitizeIdentifier f.name false) = none)
    (horacle : o f.name = some e) :
    (processFile o sc db f).2 = some (.copyError e) ∧
    (processFile o sc db f).1.lookup (sanitizeIdentifier f.name false) =
      some ⟨dedupCols (hdr.map (fun c => sanitizeIdentifier c true)), []⟩ := by
  have hfc : dedupCols (hdr.map (fun c => sanitizeIdentifier c true)) ≠ [] :=
    finalCols_ne_nil hhdr
  have hlook1 : (createIfNotExists (sanitizeIdentifier f.name false)
      (dedupCols (hdr.map (fun c => sanitizeIdentifier c true))) db).lookup
      (sanitizeIdentifier f.name false) =
      some ⟨dedupCols (hdr.map (fun c => sanitizeIdentifier c true)), []⟩ :=
    lookup_createIfNotExists_self_none hlook
  have hproc : processFile o sc db f =
      (createIfNotExists (sanitizeIdentifier f.name false)
        (dedupCols (hdr.map (fun c => sanitizeIdentifier c true))) db,
        some (.copyError e)) := by
    rw [processFile_csv hext hrows hhdr, loadTabular_run hlook1 rfl hfc, horacle]
  exact ⟨by rw [hproc], by rw [hproc]; exact hlook1⟩

/-- C9.  Loading the same well-formed CSV file twice in succession, with the
table absent or matching beforehand and the COPY succeeding: both loads
record success, the second `CREATE TABLE IF NOT EXISTS` is a no-op, the
table's row count grows by exactly `2 × rows(file)`, and the rows of every
table present before the two loads survive as a prefix (the Loader only ever
appends; it never truncates, drops, or replaces rows). -/
theorem C9_theorem (o : CopyOracle) (sc : Str) (db : DB) (f : DFile)
    (hdr : List Str) (dat : List (List Str))
    (hext : fileExt f = ".csv".toList) (hrows : f.rows = hdr :: dat) (hhdr : hdr ≠ [])
    (horacle : o f.name = none)
    (hmatch : db.lookup (sanitizeIdentifier f.name false) = none ∨
      ∃ r, db.lookup (sanitizeIdentifier f.name false) =
        some ⟨dedupCols (hdr.map (fun c => sanitizeIdentifier c true)), r⟩) :
    (processFile o sc db f).2 = some (.success sc (sanitizeIdentifier f.name false)) ∧
    (processFile o sc (processFile o sc db f).1 f).2 =
      some (.success sc (sanitizeIdentifier f.name false)) ∧
    createIfNotExists (sanitizeIdentifier f.name false)
        (dedupCols (hdr.map (fun c => sanitizeIdentifier c true)))
        (processFile o sc db f).1 = (processFile o sc db f).1 ∧
    rowCount (sanitizeIdentifier f.name false)
        (processFile o sc (processFile o sc db f).1 f).1 =
      rowCount (sanitizeIdentifier f.name false) db + 2 * dat.length ∧
    (∀ u tabu, db.lookup u = some tabu →
      ∃ extra, (processFile o sc (processFile o sc db f).1 f).1.lookup u =
        some ⟨tabu.cols, tabu.rows ++ extra⟩) := by
  have hfc : dedupCols (hdr.map (fun c => sanitizeIdentifier c true)) ≠ [] :=
    finalCols_ne_nil hhdr
  -- the rows the table holds before the first load
  have hlook1 : (createIfNotExists (sanitizeIdentifier f.name false)
      (dedupCols (hdr.map (fun c => sanitizeIdentifier c true))) db).lookup
      (sanitizeIdentifier f.name false) =
      some ⟨dedupCols (hdr.map (fun c => sanitizeIdentifier c true)),
        match db.lookup (sanitizeIdentifier f.name false) with
        | some tab => tab.rows
        | none => []⟩ := by
    rcases hmatch with hn | ⟨r, hs⟩
    · rw [hn]
      exact lookup_createIfNotExists_self_none hn
    · rw [hs, createIfNotExists_eq_of_some hs]
      exact hs
  have hproc1 : processFile o sc db f =
      (dbAppendRows (sanitizeIdentifier f.name false) dat
        (createIfNotExists (sanitizeIdentifier f.name false)
          (dedupCols (hdr.map (fun c => sanitizeIdentifier c true))) db),
        some (.success sc (sanitizeIdentifier f.name false))) := by
    rw [processFile_csv hext hrows hhdr, loadTabular_run hlook1 rfl hfc, horacle]
  have hlookdb1 : (processFile o sc db f).1.lookup (sanitizeIdentifier f.name false) =
      some ⟨dedupCols (hdr.map (fun c => sanitizeIdentifier c true)),
        (match db.lookup (sanitizeIdentifier f.name false) with
          | some tab => tab.rows
          | none => []) ++ dat⟩ := by
    rw [hproc1]
    rw [lookup_dbAppendRows_self, hlook1]
    rfl
  have hcr2 : createIfNotExists (sanitizeIdentifier f.name false)
      (dedupCols (hdr.map (fun c => sanitizeIdentifier c true)))
      (processFile o sc db f).1 = (processFile o sc db f).1 :=
    createIfNotExists_eq_of_some hlookdb1
  have hlook2 : (createIfNotExists (sanitizeIdentifier f.name false)
      (dedupCols (hdr.map (fun c => sanitizeIdentifier c true)))
      (processFile o sc db f).1).lookup (sanitizeIdentifier f.name false) =
      some ⟨dedupCols (hdr.map (fun c => sanitizeIdentifier c true)),
        (match db.lookup (sanitizeIdentifier f.name false) with
          | some tab => tab.rows
          | none => []) ++ dat⟩ := by
    rw [hcr2]
    exact hlookdb1
  have hproc2 : processFile o sc (processFile o sc db f).1 f =
      (dbAppendRows (sanitizeIdentifier f.name false) dat
        (createIfNotExists (sanitizeIdentifier f.name false)
          (dedupCols (hdr.map (fun c => sanitizeIdentifier c true)))
          (processFile o sc db f).1),
        some (.success sc (sanitizeIdentifier f.name false))) := by
    rw [processFile_csv hext hrows hhdr, loadTabular_run hlook2 rfl hfc, horacle]
  have hlookdb2 : (processFile o sc (processFile o sc db f).1 f).1.lookup
      (sanitizeIdentifier f.name false) =
      some ⟨dedupCols (hdr.map (fun c => sanitizeIdentifier c true)),
        ((match db.lookup (sanitizeIdentifier f.name false) with
          | some tab => tab.rows
          | none => []) ++ dat) ++ dat⟩ := by
    rw [hproc2, hcr2]
    rw [lookup_dbAppendRows_self, hlookdb1]
    rfl
  refine ⟨by rw [hproc1], by rw [hproc2], hcr2, ?_, ?_⟩
  · rw [rowCount, hlookdb2, rowCount]
    rcases hmatch with hn | ⟨r, hs⟩
    · rw [hn]
      simp
      omega
    · rw [hs]
      simp
      omega
  · intro u tabu hu
    by_cases hut : u = sanitizeIdentifier f.name false
    · subst hut
      rcases hmatch with hn | ⟨r, hs⟩
      · rw [hu] at hn
        cases hn
      · rw [hu] at hs
        injection hs with hs2
        refine ⟨dat ++ dat, ?_⟩
        rw [hlookdb2, hu, hs2]
        simp
    · refine ⟨[], ?_⟩
      rw [hproc2, hcr2, lookup_dbAppendRows_ne _ _ hut, hproc1,
        lookup_dbAppendRows_ne _ _ hut]
      rw [lookup_createIfNotExists_preserve hu, List.append_nil]

theorem processFile_outcome_isSome (o : CopyOracle) (sc : Str) (db : DB) (f : DFile)
    (hsup : fileExt f = ".csv".toList ∨ fileExt f = ".xls".toList ∨
      fileExt f = ".xlsx".toList) :
    (processFile o sc db f).2.isSome = true := by
  unfold processFile
  rcases hsup with h | h | h
  · rw [h, if_pos rfl]
    split
    · rfl
    · split
      · rfl
      · rfl
  all_goals (
    rw [h]
    rw [if_neg (by decide)]
    rw [if_pos (by first | exact Or.inl rfl | exact Or.inr rfl)]
    split
    · rfl
    · split
      · rfl
      · rfl)

theorem importFold_acc_mono (o : CopyOracle) (sc : Str) :
    ∀ (fs : List DFile) (db : DB) (acc : List (Str × Outcome)) (x : Str × Outcome),
      x ∈ acc → x ∈ (importFold o sc db acc fs).2 := by
  intro fs
  induction fs with
  | nil => intro db acc x hx; exact hx
  | cons f fs ih =>
    intro db acc x hx
    rw [importFold]
    cases hp : processFile o sc db f with
    | mk dbr opt =>
      cases opt with
      | none => exact ih dbr acc x hx
      | some st => exact ih dbr (acc ++ [(f.name, st)]) x (List.mem_append_left _ hx)

theorem importFold_mem (o : CopyOracle) (sc : Str) :
    ∀ (fs : List DFile) (db : DB) (acc : List (Str × Outcome)) (f : DFile),
      f ∈ fs → (∀ db2, (processFile o sc db2 f).2.isSome = true) →
      ∃ st, (f.name, st) ∈ (importFold o sc db acc fs).2 := by
  intro fs
  induction fs with
  | nil => intro db acc f hf _; simp at hf
  | cons g gs ih =>
    intro db acc f hf hsome
    rw [importFold]
    rcases List.mem_cons.mp hf with heq | hmem
    · subst heq
      cases hp : processFile o sc db f with
      | mk dbr opt =>
        cases opt with
        | none =>
          have := hsome db
          rw [hp] at this
          simp at this
        | some st =>
          refine ⟨st, ?_⟩
          have hx : (f.name, st) ∈ acc ++ [(f.name, st)] :=
            List.mem_append_right _ (by simp)
          exact importFold_acc_mono o sc gs dbr (acc ++ [(f.name, st)]) (f.name, st) hx
    · cases hp : processFile o sc db g with
      | mk dbr opt =>
        cases opt with
        | none => exact ih dbr acc f hmem hsome
        | some st => exact ih dbr (acc ++ [(g.name, st)]) f hmem hsome

/-- C1, counterexample.  Under the Loader's actual default extension set
(`{'.csv', '.xlsx', '.xls', '.txt'}`), a `.txt` file is selected for import,
but the per-file loop has no branch for it, so the returned mapping contains
no entry for that file at all (here the whole mapping is empty). -/
theorem C1_counterexample :
    fileExt ⟨"notes.txt".toList, [["a".toList], ["b".toList]]⟩ ∈
      defaultTargetExtensions ∧
    (importCleanedData (fun _ => none) "public".toList defaultTargetExtensions []
      [⟨"notes.txt".toList, [["a".toList], ["b".toList]]⟩]).2 = [] := by
  constructor
  · decide
  · decide

/-- C1, amended.  For every file the Loader selects whose extension is
`.csv`, `.xls` or `.xlsx`, the returned mapping contains an entry keyed by
that file's filename; files with other selected extensions (notably `.txt`,
which is in the code's default set) fall through the loop with no entry. -/
theorem C1_theorem (o : CopyOracle) (sc : Str) (exts : List Str) (db : DB)
    (files : List DFile) (f : DFile)
    (hmem : f ∈ files) (hsel : fileExt f ∈ exts)
    (hsup : fileExt f = ".csv".toList ∨ fileExt f = ".xls".toList ∨
      fileExt f = ".xlsx".toList) :
    ∃ st, (f.name, st) ∈ (importCleanedData o sc exts db files).2 := by
  unfold importCleanedData
  have hfsel : f ∈ files.filter (fun g => decide (fileExt g ∈ exts)) :=
    List.mem_filter.mpr ⟨hmem, by simpa using hsel⟩
  have hne : ¬((files.filter (fun g => decide (fileExt g ∈ exts))).isEmpty = true) := by
    intro hempty
    rw [List.isEmpty_iff] at hempty
    rw [hempty] at hfsel
    simp at hfsel
  rw [if_neg hne]
  exact importFold_mem o sc _ db [] f hfsel
    (fun db2 => processFile_outcome_isSome o sc db2 f hsup)

/-- Witness for C1's amended theorem. -/
theorem C1_witness :
    (⟨"t.csv".toList, [["a".toList], ["1".toList]]⟩ : DFile) ∈
      [(⟨"t.csv".toList, [["a".toList], ["1".toList]]⟩ : DFile)] ∧
    fileExt ⟨"t.csv".toList, [["a".toList], ["1".toList]]⟩ ∈ defaultTargetExtensions ∧
    (∃ st, ("t.csv".toList, st) ∈
      (importCleanedData (fun _ => none) "public".toList defaultTargetExtensions []
        [⟨"t.csv".toList, [["a".toList], ["1".toList]]⟩]).2) :=
  ⟨by decide, by decide,
    C1_theorem (fun _ => none) "public".toList defaultTargetExtensions []
      [⟨"t.csv".toList, [["a".toList], ["1".toList]]⟩]
      ⟨"t.csv".toList, [["a".toList], ["1".toList]]⟩
      (by decide) (by decide) (Or.inl (by decide))⟩

/-- Witness for C3 at a concrete store and file. -/
theorem C3_witness :
    List.lookup "t".toList [("t".toList, Table.mk ["a".toList] [])] =
      some (Table.mk ["a".toList] []) ∧
    dedupCols (["a".toList, "b".toList].map (fun c => sanitizeIdentifier c true)) ≠
      ["a".toList] ∧
    (processFile (fun _ => none) "public".toList [("t".toList, Table.mk ["a".toList] [])]
        ⟨"t.csv".toList, [["a".toList, "b".toList], ["1".toList, "2".toList]]⟩ =
      ([("t".toList, Table.mk ["a".toList] [])],
        some (.mismatch
          (dedupCols (["a".toList, "b".toList].map (fun c => sanitizeIdentifier c true)))
          (Table.mk ["a".toList] []).cols)) ∧
      importFold (fun _ => none) "public".toList [("t".toList, Table.mk ["a".toList] [])] []
        [⟨"t.csv".toList, [["a".toList, "b".toList], ["1".toList, "2".toList]]⟩] =
      importFold (fun _ => none) "public".toList [("t".toList, Table.mk ["a".toList] [])]
        ([] ++ [("t.csv".toList, .mismatch
          (dedupCols (["a".toList, "b".toList].map (fun c => sanitizeIdentifier c true)))
          (Table.mk ["a".toList] []).cols)]) []) :=
  ⟨by decide, by decide,
    C3_theorem (fun _ => none) "public".toList [("t".toList, Table.mk ["a".toList] [])]
      ⟨"t.csv".toList, [["a".toList, "b".toList], ["1".toList, "2".toList]]⟩
      (Table.mk ["a".toList] []) ["a".toList, "b".toList] [["1".toList, "2".toList]]
      [] [] rfl (by decide) (Or.inl (by decide)) (by decide) (by decide) (by decide)⟩

/-- Witness for C4 at a concrete store, file, and failing COPY. -/
theorem C4_witness :
    (fun (_ : Str) => some (DbError.mk "boom".toList none none))
        ("t.csv".toList : Str) = some (DbError.mk "boom".toList none none) ∧
    List.lookup (sanitizeIdentifier "t.csv".toList false) ([] : DB) = none ∧
    ((processFile (fun _ => some (DbError.mk "boom".toList none none)) "public".toList []
        ⟨"t.csv".toList, [["a".toList], ["1".toList]]⟩).2 =
      some (.copyError (DbError.mk "boom".toList none none)) ∧
    (∀ u tabu, List.lookup u ([] : DB) = some tabu →
      (processFile (fun _ => some (DbError.mk "boom".toList none none)) "public".toList []
        ⟨"t.csv".toList, [["a".toList], ["1".toList]]⟩).1.lookup u = some tabu) ∧
    importFold (fun _ => some (DbError.mk "boom".toList none none)) "public".toList [] []
        [⟨"t.csv".toList, [["a".toList], ["1".toList]]⟩] =
      importFold (fun _ => some (DbError.mk "boom".toList none none)) "public".toList
        (processFile (fun _ => some (DbError.mk "boom".toList none none)) "public".toList []
          ⟨"t.csv".toList, [["a".toList], ["1".toList]]⟩).1
        ([] ++ [("t.csv".toList, .copyError (DbError.mk "boom".toList none none))]) []) :=
  ⟨rfl, rfl,
    C4_theorem (fun _ => some (DbError.mk "boom".toList none none)) "public".toList []
      ⟨"t.csv".toList, [["a".toList], ["1".toList]]⟩ (DbError.mk "boom".toList none none)
      ["a".toList] [["1".toList]] [] [] rfl (by decide) (Or.inl (by decide)) rfl
      (Or.inl (by decide))⟩

/-- Witness for C9: the same file loaded twice into an empty store. -/
theorem C9_witness :
    (fun (_ : Str) => (none : Option DbError)) ("t.csv".toList : Str) = none ∧
    List.lookup (sanitizeIdentifier "t.csv".toList false) ([] : DB) = none ∧
    ((processFile (fun _ => none) "public".toList []
        ⟨"t.csv".toList, [["a".toList], ["1".toList]]⟩).2 =
      some (.success "public".toList (sanitizeIdentifier "t.csv".toList false)) ∧
    (processFile (fun _ => none) "public".toList
        (processFile (fun _ => none) "public".toList []
          ⟨"t.csv".toList, [["a".toList], ["1".toList]]⟩).1
        ⟨"t.csv".toList, [["a".toList], ["1".toList]]⟩).2 =
      some (.success "public".toList (sanitizeIdentifier "t.csv".toList false)) ∧
    createIfNotExists (sanitizeIdentifier "t.csv".toList false)
        (dedupCols (["a".toList].map (fun c => sanitizeIdentifier c true)))
        (processFile (fun _ => none) "public".toList []
          ⟨"t.csv".toList, [["a".toList], ["1".toList]]⟩).1 =
      (processFile (fun _ => none) "public".toList []
        ⟨"t.csv".toList, [["a".toList], ["1".toList]]⟩).1 ∧
    rowCount (sanitizeIdentifier "t.csv".toList false)
        (processFile (fun _ => none) "public".toList
          (processFile (fun _ => none) "public".toList []
            ⟨"t.csv".toList, [["a".toList], ["1".toList]]⟩).1
          ⟨"t.csv".toList, [["a".toList], ["1".toList]]⟩).1 =
      rowCount (sanitizeIdentifier "t.csv".toList false) ([] : DB) +
        2 * [["1".toList]].length ∧
    (∀ u tabu, List.lookup u ([] : DB) = some tabu →
      ∃ extra, (processFile (fun _ => none) "public".toList
          (processFile (fun _ => none) "public".toList []
            ⟨"t.csv".toList, [["a".toList], ["1".toList]]⟩).1
          ⟨"t.csv".toList, [["a".toList], ["1".toList]]⟩).1.lookup u =
        some ⟨tabu.cols, tabu.rows ++ extra⟩)) :=
  ⟨rfl, rfl,
    C9_theorem (fun _ => none) "public".toList []
      ⟨"t.csv".toList, [["a".toList], ["1".toList]]⟩ ["a".toList] [["1".toList]]
      (by decide) rfl (by decide) rfl (Or.inl (by decide))⟩

/-- Witness for C10: a failing COPY right after its table was created. -/
theorem C10_witness :
    List.lookup (sanitizeIdentifier "t.csv".toList false) ([] : DB) = none ∧
    ((processFile (fun _ => some (DbError.mk "boom".toList none none)) "public".toList []
        ⟨"t.csv".toList, [["a".toList], ["1".toList]]⟩).2 =
      some (.copyError (DbError.mk "boom".toList none none)) ∧
    (processFile (fun _ => some (DbError.mk "boom".toList none none)) "public".toList []
        ⟨"t.csv".toList, [["a".toList], ["1".toList]]⟩).1.lookup
        (sanitizeIdentifier "t.csv".toList false) =
      some ⟨dedupCols (["a".toList].map (fun c => sanitizeIdentifier c true)), []⟩) :=
  ⟨rfl,
    C10_theorem (fun _ => some (DbError.mk "boom".toList none none)) "public".toList []
      ⟨"t.csv".toList, [["a".toList], ["1".toList]]⟩ (DbError.mk "boom".toList none none)
      ["a".toList] [["1".toList]] (by decide) rfl (by decide) rfl rfl⟩
